import Mathlib

/-!
Verification of the adorn type-directed construction and validation engine.

This file gives a shallow embedding of the core of the adorn repository:

* `Ty` / `Val` model the target-type descriptors and the semi-structured
  (JSON-like) runtime values the engine manipulates.
* The class fixture (`CName`, the registry tables) is the `Complex`
  hierarchy from the repository's example module (`tests/example/gym.py`),
  restricted to the fragment exercised by the orchestrator model: the
  `Food`/`Meat`/`Beef`/`Pork`/`Fruit`/`Apple`/`Avocado` hierarchy and the
  `GrandParent`/`ParentA`/`Child0`/`Child1` keyword-variadic chain.
  (`Beef.feed` is modeled with type `str` and default value `corn`; the
  enum unit `Anum` is outside the modeled fragment.)
* `machine` is a fuel-indexed model of the orchestrator `Base`
  (`src/adorn/orchestrator/base.py`) dispatching between the `Python`
  unit (`src/adorn/unit/python.py`), the `Complex` unit
  (`src/adorn/unit/complex.py`), the `ConstructorValue` unit
  (`src/adorn/unit/constructor_value.py`) and the `ParameterValue`
  unit's `Identity` handler (`src/adorn/unit/parameter_value.py`).
  Results are `Out α`: a normal return, a raised Python exception, or
  fuel exhaustion (an artifact of the embedding; the Python code has no
  fuel and simply recurses).
* `Constructor.infer_params` (`src/adorn/data/constructor.py`), the
  `Dependent` literal-dict validation (`src/adorn/unit/parameter_value.py`)
  and the `Alter` pipeline (`Base.a_get` / `Base.alter_obj`) are modeled
  by standalone functions over the same data model.

Python-specific semantics that the model takes care to preserve:
`bool` is a runtime subtype of `int`; iterating a mapping yields its
keys; `str` is iterable; dict merges `{**a, **b}` keep the key order of
`a` and append the new keys of `b`; membership tests (`in`) raise
`TypeError` on non-container values.
-/

namespace Adorn

/-- Names of the registered classes of the modeled `Complex` hierarchy
(the gym fixture). -/
inductive CName where
  | food | meat | beef | pork
  | fruit | apple | avocado
  | grandParent | parentA | child0 | child1
deriving DecidableEq, Repr

/-- Target type descriptors: plain builtin types, parameterized generics,
classes of the `Complex` hierarchy, plain classes claimed by no unit, and
`DependentTypeCheck[w, Literal[literalDict]]` parameter annotations
(`dep` carries the already-extracted arguments of a well-formed wrapper,
on which `Dependent.check_args` passes: exactly two args, the second a
`typing.Literal` holding a single `Dict[str, str]`). -/
inductive Ty where
  | int
  | str
  | bool
  | float
  | list (t : Ty)
  | set (t : Ty)
  | tuple (ts : List Ty)
  | union (ts : List Ty)
  | dict (k v : Ty)
  | cls (c : CName)
  | foreign (s : String)
  | dep (w : CName) (literalDict : List (String × String))
deriving Repr

/-- Semi-structured runtime values: the modeled fragment of Python's value
universe.  `float` carries an integer, modeling only integral-valued
floats (sufficient for the claims).  `params` is an `adorn.params.Params`
mapping; `dict` is a plain Python dict; `inst` is a constructed instance
of a hierarchy class; `set` is a Python set given by its element list. -/
inductive Val where
  | int (n : Int)
  | bool (b : Bool)
  | str (s : String)
  | float (n : Int)
  | none
  | list (xs : List Val)
  | set (xs : List Val)
  | tuple (xs : List Val)
  | dict (kvs : List (Val × Val))
  | params (kvs : List (String × Val))
  | inst (c : CName) (fields : List (String × Val))
deriving Repr

/-- Association-list lookup (Python dict read, first binding wins; the
modeled mappings have distinct keys, as Python dicts do). -/
def lookupA : List (String × α) → String → Option α
  | [], _ => Option.none
  | (k, v) :: rest, key => if k = key then some v else lookupA rest key

/-- Python `key in mapping`. -/
def hasKeyA (m : List (String × α)) (key : String) : Bool :=
  (lookupA m key).isSome

/-- Python `dict.pop(key, default)` -- drop the binding. -/
def eraseA : List (String × α) → String → List (String × α)
  | [], _ => []
  | (k, v) :: rest, key => if k = key then eraseA rest key else (k, v) :: eraseA rest key

/-- Python `mapping[key] = value`: update in place if present, else append. -/
def setA : List (String × α) → String → α → List (String × α)
  | [], key, value => [(key, value)]
  | (k, v) :: rest, key, value =>
    if k = key then (key, value) :: rest else (k, v) :: setA rest key value

/-- Python `{**a, **b}`: keys of `a` first (values updated from `b`),
then the keys of `b` not in `a`, in order. -/
def pyMerge (a b : List (String × α)) : List (String × α) :=
  (a.map (fun kv => (kv.1, (lookupA b kv.1).getD kv.2)))
    ++ b.filter (fun kv => ! hasKeyA a kv.1)

/-! ## The class fixture: registries and constructor signatures

These tables record the state the decorators in `tests/example/gym.py`
leave in the class-level registries of `adorn.unit.complex.Complex`
(`_registry`, `_subclass_registry`, `_intermediate_registry`,
`_parent_registry`) and in `inspect.signature` for each constructor. -/

/-- `inspect.Parameter.kind` for the kinds occurring in the fixture. -/
inductive PKind where
  | posOrKw
  | varPos
  | varKw
deriving DecidableEq, Repr

/-- One entry of `inspect.signature(constructor).parameters`: kind,
anno, and default value when one is declared.  (`self` is not part
of `inspect.signature` of a class.) -/
structure SigParam where
  kind : PKind
  anno : Ty
  default : Option Val
deriving Repr

/-- `inspect.signature(cls).parameters` for each fixture class, in
declaration order.  `Pork` declares no `__init__`, so its signature is
inherited from `Meat`. -/
def ownSig : CName → List (String × SigParam)
  | .food => []
  | .meat => [("weight", ⟨.posOrKw, .float, Option.none⟩)]
  | .beef => [("feed", ⟨.posOrKw, .str, some (.str "corn")⟩),
              ("kwargs", ⟨.varKw, .str, Option.none⟩)]
  | .pork => [("weight", ⟨.posOrKw, .float, Option.none⟩)]
  | .fruit => []
  | .apple => []
  | .avocado => []
  | .grandParent => [("gp", ⟨.posOrKw, .str, Option.none⟩)]
  | .parentA => [("a", ⟨.posOrKw, .int, Option.none⟩),
                 ("kwargs", ⟨.varKw, .str, Option.none⟩)]
  | .child0 => [("zero", ⟨.posOrKw, .list .str, Option.none⟩),
                ("kwargs", ⟨.varKw, .str, Option.none⟩)]
  | .child1 => [("one", ⟨.posOrKw, .dict .int (.set .bool), Option.none⟩),
                ("kwargs", ⟨.varKw, .str, Option.none⟩)]

/-- `cls.mro()[1:]` restricted to the fixture classes (every entry is a
subclass of `Complex`; the further entries `Gym`, `Complex`, `Unit`,
`object` are below every fixture class and never reached by the
nearest-ancestor search because each chain stops at a class without
`**kwargs`). -/
def mroTail : CName → List CName
  | .food => []
  | .meat => [.food]
  | .beef => [.meat, .food]
  | .pork => [.meat, .food]
  | .fruit => [.food]
  | .apple => [.fruit, .food]
  | .avocado => [.fruit, .food]
  | .grandParent => []
  | .parentA => [.grandParent]
  | .child0 => [.parentA, .grandParent]
  | .child1 => [.parentA, .grandParent]

/-- `Complex.parameter_order` class attribute (`Child0` declares one). -/
def parameterOrderOf : CName → Option (List String)
  | .child0 => some ["zero", "a", "gp"]
  | _ => Option.none

/-- `Complex._subclass_registry`: the constructible classes, mapped to
(parent, name). -/
def subclassRegistry : CName → Option (CName × String)
  | .beef => some (.meat, "beef")
  | .pork => some (.meat, "pork")
  | .apple => some (.fruit, "apple")
  | .avocado => some (.fruit, "avocado")
  | .child0 => some (.parentA, "0")
  | .child1 => some (.parentA, "1")
  | _ => Option.none

/-- The keys of `Complex._registry`: the classes `register` was invoked
on (`cls._registry[cls]` is created even for `register(None)` calls). -/
def registryKeys : List CName :=
  [.food, .meat, .fruit, .grandParent, .parentA]

/-- `Complex._registry[c]`: name-to-class entries created by
`register(name)` with a non-null name, in decorator order. -/
def registryMap : CName → List (String × CName)
  | .meat => [("beef", .beef), ("pork", .pork)]
  | .fruit => [("apple", .apple), ("avocado", .avocado)]
  | .parentA => [("0", .child0), ("1", .child1)]
  | _ => []

/-- `Complex._parent_registry`: parents mapped to their children that are
themselves parents (populated by `register(None)`). -/
def parentRegistry : CName → List CName
  | .food => [.meat, .fruit]
  | .grandParent => [.parentA]
  | _ => []

/-- `Complex._contains` / `Complex.contains`: the class is registered,
either as a constructible subclass or as a registry key. -/
def containsCls (c : CName) : Bool :=
  (subclassRegistry c).isSome || registryKeys.contains c

/-- Python `issubclass` restricted to the fixture: reflexive, or the
candidate appears in the method resolution order. -/
def isSubclassOf (c p : CName) : Bool :=
  c = p || (mroTail c).contains p

/-! ## Constructor.infer_params (`src/adorn/data/constructor.py`)

`infer_params` walks `inspect.signature`, removes `self` and the
var-positional entry, and, when the constructor declares `**kwargs`,
recursively merges the parameters of the nearest ancestor in the MRO that
subclasses `Complex`, with the subclass's own entries taking precedence.
The fuel argument bounds the recursion through the MRO (an artifact of
the embedding; the Python recursion terminates because the MRO is
finite). -/

/-- Does the signature declare a `**kwargs` catch-all
(`param.kind == VAR_KEYWORD`)? -/
def hasVarKw (sig : List (String × SigParam)) : Bool :=
  sig.any (fun kv => kv.2.kind = .varKw)

/-- The name of the var-positional entry of a signature, when present
(`param.kind == VAR_POSITIONAL`). -/
def varPositionalKey (sig : List (String × SigParam)) : Option String :=
  (sig.find? (fun kv => kv.2.kind = .varPos)).map (·.1)

/-- The first removals `infer_params` performs: pop `self` (a no-op
here, `inspect.signature` of a class already excludes it) and delete the
var-positional entry. -/
def sigNoVariadic (c : CName) : List (String × SigParam) :=
  let sig := eraseA (ownSig c) "self"
  match varPositionalKey sig with
  | some k => eraseA sig k
  | Option.none => sig

/-- The constructor's own explicitly declared parameters, with `self`,
the var-positional entry and the `kwargs` entry removed. -/
def cleanedSig (c : CName) : List (String × SigParam) :=
  eraseA (sigNoVariadic c) "kwargs"

/-- All fixture classes subclass `Complex`, so the nearest `Complex`
ancestor in the MRO is the first entry of `mroTail`. -/
def nearestComplexAncestor (c : CName) : Option CName :=
  ((mroTail c).find? (fun _ => true))

/-- `Constructor.infer_params`.  When there is no `**kwargs` the
signature minus `self` and the var-positional entry is returned;
otherwise the `kwargs` entry is popped and the result is merged over the
recursively inferred parameters of the nearest `Complex` ancestor
(`{**super_parameters, **parameters}`). -/
def inferParams : Nat → CName → List (String × SigParam)
  | 0, _ => []
  | fuel + 1, c =>
    let sig := sigNoVariadic c
    if ¬ hasVarKw sig then sig
    else
      match nearestComplexAncestor c with
      | some sup => pyMerge (inferParams fuel sup) (cleanedSig c)
      | Option.none => pyMerge [] (cleanedSig c)

/-- `Constructor(c).parameters`: the inferred constructor parameters (the
fixture MRO chains have length at most 3, so fuel 8 is ample). -/
def parametersOf (c : CName) : List (String × SigParam) :=
  inferParams 8 c

/-! ## Complex.get_instantiate_children (`src/adorn/unit/complex.py`)

`_explode_registry` and `get_instantiate_children` are mutually recursive
over the registry graph; the fuel bounds that recursion (an embedding
artifact; the fixture hierarchy is acyclic with depth at most 3). -/

mutual

/-- `Complex._explode_registry`: the class itself when constructible,
updated with the instantiate-children of each named registry entry. -/
def explodeRegistry : Nat → CName → List (String × CName)
  | 0, _ => []
  | fuel + 1, c =>
    let base : List (String × CName) :=
      match subclassRegistry c with
      | some (_, n) => [(n, c)]
      | Option.none => []
    (registryMap c).foldl
      (fun acc kv => pyMerge acc (instantiateChildren fuel kv.2)) base

/-- `Complex.get_instantiate_children`: all constructible descendants,
folding in each intermediate child's descendants
(`{**i.get_instantiate_children(), **acc, **i._explode_registry()}`). -/
def instantiateChildren : Nat → CName → List (String × CName)
  | 0, _ => []
  | fuel + 1, c =>
    let start := explodeRegistry fuel c
    (parentRegistry c).foldl
      (fun acc i =>
        pyMerge (pyMerge (instantiateChildren fuel i) acc) (explodeRegistry fuel i))
      start

end

/-- `cls.get_instantiate_children()` at ample fuel. -/
def childrenOf (c : CName) : List (String × CName) :=
  instantiateChildren 8 c

/-! ## Runtime value helpers (Python semantics) -/

/-- Python `type(v) == bool` (exact type test used by `Int`'s
`additional_checks`). -/
def isExactBool : Val → Bool
  | .bool _ => true
  | _ => false

/-- Python `isinstance(v, t)` for the origin-free types of the model:
`bool` is a subtype of `int`; an instance matches a class through the
method resolution order; an unclaimed opaque class matches no modeled
value. -/
def isinstancePy : Ty → Val → Bool
  | .int, .int _ => true
  | .int, .bool _ => true
  | .bool, .bool _ => true
  | .str, .str _ => true
  | .float, .float _ => true
  | .cls c, .inst cv _ => isSubclassOf cv c
  | _, _ => false

/-- `getattr(t, "__origin__", None) is not None`: the parameterized
generics (including the `Dependent` wrappers) have an origin, plain
classes do not. -/
def hasOrigin : Ty → Bool
  | .list _ | .set _ | .tuple _ | .union _ | .dict _ _ | .dep _ _ => true
  | _ => false

/-- Python `isinstance(v, set)`. -/
def isSetVal : Val → Bool
  | .set _ => true
  | _ => false

/-- Python `isinstance(v, dict)` (`Params` is a `MutableMapping`, not a
`dict` subclass). -/
def isDictVal : Val → Bool
  | .dict _ => true
  | _ => false

/-- Python `isinstance(v, Mapping)`: plain dicts and `Params`. -/
def isMappingVal : Val → Bool
  | .dict _ | .params _ => true
  | _ => false

/-- Python `isinstance(v, Params)` (`src/adorn/params.py`). -/
def isParamsVal : Val → Bool
  | .params _ => true
  | _ => false

/-- String-keyed view of a dict's entries, when every key is a string. -/
def allStringKeys : List (Val × Val) → Option (List (String × Val))
  | [] => some []
  | (.str k, v) :: rest => (allStringKeys rest).map (fun r => (k, v) :: r)
  | _ => Option.none

mutual

/-- `Params._check_is_dict` as observed through a read: a nested dict
(string-keyed, as configuration mappings are) re-enters as a `Params`,
and list values are wrapped elementwise. -/
def wrapRead : Val → Val
  | .dict kvs =>
    match allStringKeys kvs with
    | some skvs => .params skvs
    | Option.none => .dict kvs
  | .list xs => .list (wrapReadList xs)
  | v => v

/-- Elementwise `Params._check_is_dict` over a list value. -/
def wrapReadList : List Val → List Val
  | [] => []
  | x :: xs => wrapRead x :: wrapReadList xs

end

/-- `Params.get(key)` (default `None`), wrapping the value read
(`src/adorn/params.py`). -/
def paramsGet (m : List (String × Val)) (key : String) : Val :=
  ((lookupA m key).map wrapRead).getD .none

/-- `params[key]` (`Params.__getitem__`), wrapping the value read. -/
def paramsItem (m : List (String × Val)) (key : String) : Option Val :=
  (lookupA m key).map wrapRead

/-- Python `iter(v)` for the model's values: lists, sets and tuples yield
elements, strings yield their characters, mappings yield their keys.
`none` for non-iterables. -/
def pyIter : Val → Option (List Val)
  | .list xs => some xs
  | .set xs => some xs
  | .tuple xs => some xs
  | .str s => some (s.toList.map (fun ch => .str (String.mk [ch])))
  | .dict kvs => some (kvs.map (·.1))
  | .params kvs => some (kvs.map (fun kv => Val.str kv.1))
  | _ => Option.none

/-- Python `v.items()` for the mapping values (`Params` wraps the values
read through `__getitem__`). -/
def pyItems : Val → Option (List (Val × Val))
  | .dict kvs => some kvs
  | .params kvs => some (kvs.map (fun kv => (Val.str kv.1, wrapRead kv.2)))
  | _ => Option.none

mutual

/-- Runtime hashability of a constructed value (Python `hash`): builtins
succeed, containers other than tuples fail, instances hash by identity. -/
def runtimeHashable : Val → Bool
  | .int _ | .bool _ | .str _ | .float _ | .none | .inst _ _ => true
  | .tuple xs => runtimeHashableList xs
  | _ => false

/-- `runtimeHashable` over the elements of a tuple. -/
def runtimeHashableList : List Val → Bool
  | [] => true
  | x :: xs => runtimeHashable x && runtimeHashableList xs

end

/-! ## Unit membership (`contains`)

`Base.contains` asks each unit; the `Python` unit claims builtins and the
parameterized generics whose argument types are representable
(`Rterable._contains` etc. in `src/adorn/unit/python.py`), the `Complex`
unit claims the registered hierarchy classes.  An opaque class is claimed
by no unit, and neither is a bare `Dependent[...]` wrapper used as a type
target: `ParameterValue.contains` claims only `Parameter` instances
(`src/adorn/unit/parameter_value.py`), so the wrappers are resolved only
through the `Parameter` dispatch modeled by `pvTypeCheck` below. -/

mutual

def containsTy : Ty → Bool
  | .int | .str | .bool | .float => true
  | .list t => containsTy t
  | .set t => containsTy t
  | .tuple ts => containsTyList ts
  | .union ts => containsTyList ts
  | .dict k v => containsTy k && containsTy v
  | .cls c => containsCls c
  | .foreign _ => false
  | .dep _ _ => false

/-- `all(orchestrator.contains(i) for i in args)`. -/
def containsTyList : List Ty → Bool
  | [] => true
  | t :: ts => containsTy t && containsTyList ts

end

/-- The declared `hashable` attribute of the handler resolved for a type
(`BuiltIn.hashable = True`; `Wrapper` and `Complex` classes inherit
`Unit.hashable = False`).  Used by `Wrapper.is_hashable`. -/
def declaredHashable : Ty → Bool
  | .int | .str | .bool | .float => true
  | _ => false

/-! ## The error model (`src/adorn/exception/type_check_error.py`)

Errors carry the structural fields of the corresponding exception
classes;  message strings are presentation (out of scope per the spec).
`pyKeyError` / `pyTypeError` / `pyValueError` stand for the native Python
exceptions escaping unguarded operations. -/

/-- A request for sibling state: the model of a `Parameter` whose type is
a `Dependent` wrapper (`wrapped` is `args[0]`, `literalDict` the mapping
inside the `typing.Literal`, `localState` the sibling state). -/
structure DepParam where
  wrapped : CName
  literalDict : List (String × String)
  localState : List (String × Val)
deriving Repr

/-- Keys of a `KeyValueError` aggregate: element indices, parameter
names, or union member types. -/
inductive EKey where
  | idx (n : Nat)
  | str (s : String)
  | ty (t : Ty)
deriving Repr

inductive Err where
  | noUnit (target : Ty)
  | wrongType (target : Ty) (obj : Val)
  | paramError (target : Ty) (obj : Val)
  | unRepresented (target : Ty) (obj : Val)
  | hashableError (target : Ty) (obj : Val)
  | tupleArgLen (target : Ty) (obj : Val)
  | keyValue (target : Ty) (kvs : List (EKey × Err)) (obj : Val)
  | keyValueDiff (target : CName) (parameterKv : List (String × Ty))
      (objKv : List (String × String)) (obj : Val)
  | complexTypeMismatch (target : Ty) (possibilities : List (String × CName)) (obj : Val)
  | parameterOrder (target : CName) (tooFew : List String) (tooMany : List String)
  | extraLiteral (target : DepParam) (extras : List String)
  | tooDeepLiteral (target : DepParam) (badLiteral : List String)
  | missingDependency (target : DepParam) (missing : List (String × String))
  | pyKeyError
  | pyTypeError
  | pyValueError
deriving Repr

/-- The runtime type name of a value (`type(obj).__name__`), recorded in
`KeyValueDiffError`. -/
def pyTypeName : Val → String
  | .int _ => "int"
  | .bool _ => "bool"
  | .str _ => "str"
  | .float _ => "float"
  | .none => "NoneType"
  | .list _ => "list"
  | .set _ => "set"
  | .tuple _ => "tuple"
  | .dict _ => "dict"
  | .params _ => "Params"
  | .inst _ _ => "instance"

/-- Outcome of running a Python call in the model: a normal return, a
raised exception, or fuel exhaustion (`div`, an embedding artifact). -/
inductive Out (α : Type) where
  | ok (a : α)
  | raised (e : Err)
  | div
deriving Repr

/-- Sequencing in the `Out` model: propagate raises and divergence. -/
def Out.bind : Out α → (α → Out β) → Out β
  | .ok a, f => f a
  | .raised e, _ => .raised e
  | .div, _ => .div

/-- Map over a normal return. -/
def Out.map (f : α → β) : Out α → Out β
  | .ok a => .ok (f a)
  | .raised e => .raised e
  | .div => .div

/-- Run an effectful function over a list, collecting results in order
(the model of a Python list comprehension: earlier raises propagate). -/
def outMapM (f : α → Out β) : List α → Out (List β)
  | [] => .ok []
  | x :: xs => (f x).bind (fun b => (outMapM f xs).map (fun bs => b :: bs))

/-! ## The primitive family (`BuiltIn` subclasses in
`src/adorn/unit/python.py`) -/

/-- Decimal digits to a number, `none` when empty or non-digit. -/
def digitsToNat (cs : List Char) : Option Nat :=
  if cs.isEmpty then Option.none
  else if cs.all (·.isDigit) then
    some (cs.foldl (fun acc c => acc * 10 + (c.toNat - 48)) 0)
  else Option.none

/-- Python `int(s)` on a string: optional sign then decimal digits
(whitespace stripping and underscores are outside the model). -/
def pyParseIntStr (s : String) : Option Int :=
  match s.toList with
  | '-' :: rest => (digitsToNat rest).map (fun n => -(n : Int))
  | '+' :: rest => (digitsToNat rest).map (fun n => (n : Int))
  | chars => (digitsToNat chars).map (fun n => (n : Int))

/-- `Int._from_obj` -- Python `int(obj)`: numeric-string coercion
succeeds, a non-numeric string raises `ValueError`, a non-numeric object
raises `TypeError`. -/
def pyIntCtor : Val → Out Val
  | .int n => .ok (.int n)
  | .bool b => .ok (.int (if b then 1 else 0))
  | .float n => .ok (.int n)
  | .str s =>
    match pyParseIntStr s with
    | some n => .ok (.int n)
    | Option.none => .raised .pyValueError
  | _ => .raised .pyTypeError

/-- Python `str(obj)`: total; the exact repr of non-scalar values is
presentation detail. -/
def pyStrOf : Val → String
  | .int n => toString n
  | .bool b => if b then "True" else "False"
  | .str s => s
  | .float n => toString n ++ ".0"
  | .none => "None"
  | v => pyTypeName v

/-- Python truthiness, for `bool(obj)`. -/
def pyTruthy : Val → Bool
  | .int n => n ≠ 0
  | .bool b => b
  | .str s => ¬ s.isEmpty
  | .float n => n ≠ 0
  | .none => false
  | .list xs => ¬ xs.isEmpty
  | .set xs => ¬ xs.isEmpty
  | .tuple xs => ¬ xs.isEmpty
  | .dict kvs => ¬ kvs.isEmpty
  | .params kvs => ¬ kvs.isEmpty
  | .inst _ _ => true

/-- `Float._from_obj` -- Python `float(obj)` (the model parses only
integral-valued numeric strings, sufficient for the claims). -/
def pyFloatCtor : Val → Out Val
  | .int n => .ok (.float n)
  | .bool b => .ok (.float (if b then 1 else 0))
  | .float n => .ok (.float n)
  | .str s =>
    match pyParseIntStr s with
    | some n => .ok (.float n)
    | Option.none => .raised .pyValueError
  | _ => .raised .pyTypeError

/-- `Int._type_check`: the `isinstance` test admits `bool` (a runtime
subtype of `int`), which `additional_checks` then rejects with
`WrongTypeError(int, obj)`. -/
def intCheck (v : Val) : Option Err :=
  if ¬ isinstancePy .int v then some (.wrongType .int v)
  else if isExactBool v then some (.wrongType .int v)
  else Option.none

/-- `BuiltIn._type_check` for `Str` / `Bool` / `Float` (no additional
checks). -/
def builtinCheck (t : Ty) (v : Val) : Option Err :=
  if ¬ isinstancePy t v then some (.wrongType t v) else Option.none

/-- `Wrapper.is_hashable` (`src/adorn/unit/python.py`): the nested type
must be representable and its handler must declare `hashable = True`. -/
def isHashableCheck (target targetArg : Ty) (v : Val) : Option Err :=
  if ¬ containsTy targetArg then some (.unRepresented target v)
  else if ¬ declaredHashable targetArg then some (.hashableError target v)
  else Option.none

/-! ## Complex.general_check (`src/adorn/unit/complex.py`) -/

/-- Result of `Complex.general_check`: `pass` models the `None` return,
`already` models returning the value itself (a construction call on a
value that is already an instance), `failed` an error return. -/
inductive GCR where
  | pass
  | already (v : Val)
  | failed (e : Err)
deriving Repr

/-- `Complex.general_check`: registration, instance short-circuit (only
for construction), `Params` shape, and discriminator resolution, in that
order.  The membership test `obj.get("type") not in children` raises
`TypeError` when the discriminator value is unhashable. -/
def generalCheck (isFromObj : Bool) (c : CName) (v : Val) : Out GCR :=
  if ¬ containsCls c then .ok (.failed (.unRepresented (.cls c) v))
  else if isFromObj && isinstancePy (.cls c) v then .ok (.already v)
  else
    match v with
    | .params m =>
      let ch := childrenOf c
      let tv := paramsGet m "type"
      match tv with
      | .str s =>
        if hasKeyA ch s then .ok .pass
        else .ok (.failed (.complexTypeMismatch (.cls c) ch v))
      | _ =>
        if runtimeHashable tv then .ok (.failed (.complexTypeMismatch (.cls c) ch v))
        else .raised .pyTypeError
    | _ => .ok (.failed (.paramError (.cls c) v))

/-- `target_cls.resolve_class_name(obj.get("type"))`: the constructible
descendant named by the discriminator. -/
def resolveRu (c : CName) (m : List (String × Val)) : Option CName :=
  match paramsGet m "type" with
  | .str s => lookupA (childrenOf c) s
  | _ => Option.none

/-! ## ConstructorValue (`src/adorn/unit/constructor_value.py`) -/

/-- `ConstructorValue.check_parameter_order`: when declared, the order
must name exactly the inferred parameters (the source collects the
differences as Python sets; the model keeps them in deterministic list
order). -/
def checkParameterOrder (c : CName) : Option Err :=
  match parameterOrderOf c with
  | Option.none => Option.none
  | some po =>
    let pk := (parametersOf c).map (·.1)
    let tooFew := pk.filter (fun k => ¬ po.contains k)
    let tooMany := po.filter (fun k => ¬ pk.contains k)
    if tooFew.isEmpty ∧ tooMany.isEmpty then Option.none
    else some (.parameterOrder c tooFew tooMany)

/-- `ConstructorValue.parameter_consistency` via `get_kv`: required
parameters (no default, not `self`) missing from the value, and value
keys (other than `type`) not among the parameters. -/
def parameterConsistency (c : CName) (m : List (String × Val)) : Option Err :=
  let ps := parametersOf c
  let pkv := ps.filterMap (fun kp =>
    if kp.1 = "self" ∨ kp.2.default.isSome then Option.none
    else if hasKeyA m kp.1 then Option.none
    else some (kp.1, kp.2.anno))
  let okv := m.filterMap (fun kv =>
    if kv.1 = "type" then Option.none
    else if hasKeyA ps kv.1 then Option.none
    else some (kv.1, pyTypeName (wrapRead kv.2)))
  if pkv.isEmpty ∧ okv.isEmpty then Option.none
  else some (.keyValueDiff c pkv okv (.params m))

/-- Calling the real constructor `target_cls.constructor(**kwargs)`:
Python raises `TypeError` on a missing required argument or an
unexpected keyword; otherwise the fixture constructors store every
(possibly defaulted) parameter as an attribute. -/
def pyConstruct (c : CName) (kwargs : List (String × Val)) : Out Val :=
  let ps := parametersOf c
  if ¬ (ps.filter (fun kp => kp.2.default.isNone ∧ ¬ hasKeyA kwargs kp.1)).isEmpty then
    .raised .pyTypeError
  else if ¬ (kwargs.filter (fun kv => ¬ hasKeyA ps kv.1)).isEmpty then
    .raised .pyTypeError
  else
    .ok (.inst c (ps.map (fun kp =>
      (kp.1, (lookupA kwargs kp.1).getD (kp.2.default.getD .none)))))

/-- Failing entries of a per-element check run starting at index `i`
(`enumerate` + filter in `Rterable._type_check`). -/
def enumFailsFrom (i : Nat) : List (Option Err) → List (Nat × Err)
  | [] => []
  | Option.none :: rest => enumFailsFrom (i + 1) rest
  | some e :: rest => (i, e) :: enumFailsFrom (i + 1) rest

/-- Failing entries of a per-element check run, keyed by their original
zero-based index. -/
def enumFails (rs : List (Option Err)) : List (Nat × Err) :=
  enumFailsFrom 0 rs

/-- The loop of `ConstructorValue.dict_type_check`: for each key of the
iteration order present in the value (and distinct from `type`),
type-check the value against the parameter anno through the
orchestrator, collecting failures keyed by parameter name. -/
def ctcLoop (ptc1 : Ty → Val → Out (Option Err)) (c : CName)
    (m : List (String × Val)) : List String → Out (List (String × Err))
  | [] => .ok []
  | k :: ks =>
    if hasKeyA m k ∧ k ≠ "type" then
      match lookupA (parametersOf c) k with
      | Option.none => .raised .pyKeyError
      | some sp =>
        (ptc1 sp.anno (paramsGet m k)).bind (fun r =>
          (ctcLoop ptc1 c m ks).map (fun rest =>
            match r with
            | Option.none => rest
            | some e => (k, e) :: rest))
    else ctcLoop ptc1 c m ks

/-- The loop of `BaseConstructorValue._from_obj`: construct each present
parameter through the orchestrator, accumulating keyword arguments in
order (the accumulating dict is also the `local_state` of each
`Parameter`; the `Identity` handler does not consult it). -/
def cfoLoop (pfo1 : Ty → Val → Out Val) (c : CName)
    (m1 : List (String × Val)) : List String → List (String × Val) →
    Out (List (String × Val))
  | [], kwargs => .ok kwargs
  | k :: ks, kwargs =>
    if hasKeyA m1 k then
      match lookupA (parametersOf c) k with
      | Option.none => .raised .pyKeyError
      | some sp =>
        (pfo1 sp.anno (paramsGet m1 k)).bind (fun w =>
          cfoLoop pfo1 c m1 ks (kwargs ++ [(k, w)]))
    else cfoLoop pfo1 c m1 ks kwargs

/-- The loop of `Rnion._from_obj`: construct through the first member
whose `type_check` (on a deep copy; values are immutable in the model)
returns `None`, otherwise report every member's failure. -/
def unionFromLoop (tc1 : Ty → Val → Out (Option Err)) (fo1 : Ty → Val → Out Val)
    (v : Val) : List Ty → Out (Val ⊕ List (Ty × Err))
  | [] => .ok (.inr [])
  | t :: ts =>
    (tc1 t v).bind (fun r =>
      match r with
      | Option.none => (fo1 t v).map Sum.inl
      | some e =>
        (unionFromLoop tc1 fo1 v ts).map (fun res =>
          match res with
          | .inl w => .inl w
          | .inr fails => .inr ((t, e) :: fails)))

/-- A coarse type name used in the composed string keys of the `Dict`
aggregate (`f"{prefix}_{target_args[en]}_{en_prime}"`; exact formatting
is presentation detail). -/
def tyName : Ty → String
  | .int => "int"
  | .str => "str"
  | .bool => "bool"
  | .float => "float"
  | .list _ => "List"
  | .set _ => "Set"
  | .tuple _ => "Tuple"
  | .union _ => "Union"
  | .dict _ _ => "Dict"
  | .cls _ => "cls"
  | .foreign s => s
  | .dep _ _ => "Dependent"

/-- The aggregate keys of `Rict._type_check`: key failures then value
failures, each enumerated separately under a distinct prefix. -/
def dictAggKvs (tk tv : Ty) (keyFails valFails : List Err) : List (EKey × Err) :=
  keyFails.enum.map (fun p => (EKey.str ("key_" ++ tyName tk ++ "_" ++ toString p.1), p.2))
    ++ valFails.enum.map (fun p => (EKey.str ("value_" ++ tyName tv ++ "_" ++ toString p.1), p.2))

/-! ## The orchestrator machine

A fuel-indexed bundle of the mutually recursive entry points: `tc`/`fo`
are `Base.type_check` / `Base.from_obj` on a type target (dispatching to
the `Python` or `Complex` unit), `ctc`/`cfo` the same entry points on a
`Constructor` target (dispatching to `BaseConstructorValue`), `ptc`/`pfo`
on a `Parameter` target resolved to the `Identity` handler.
`ParameterValue.get` resolves a `Parameter` to `DependentTypeCheck` /
`DependentFromObj` when the annotation is a `Dependent`-origin wrapper
with a registered `Complex` first argument, and to `Identity` otherwise;
every constructor parameter annotation of the fixture hierarchy is a
non-`Dependent` type (each one is even representable,
`annos_contained`), so the per-parameter loops of the `Constructor`
entries dispatch to `Identity`
(`fixture_dispatch_identity` proves the resolution).  The full
`Parameter` dispatch, including the `DependentTypeCheck` validation
handler, is modeled by `pvTypeCheck` below the machine.
Every re-entry through the orchestrator consumes one unit of fuel;
`machine 0` diverges.  The orchestrator is built with an empty `alters`
list, so `alter_obj` is the identity (the `Alter` pipeline is modeled
separately below).  `Base.get` raises a `TypeCheckError` when no unit
claims the target. -/

structure Machine where
  tc : Ty → Val → Out (Option Err)
  fo : Ty → Val → Out Val
  ctc : CName → List (String × Val) → Out (Option Err)
  cfo : CName → List (String × Val) → Out (Val × List (String × Val))
  ptc : Ty → Val → Out (Option Err)
  pfo : Ty → Val → Out Val

def machine : Nat → Machine
  | 0 =>
    { tc := fun _ _ => .div, fo := fun _ _ => .div,
      ctc := fun _ _ => .div, cfo := fun _ _ => .div,
      ptc := fun _ _ => .div, pfo := fun _ _ => .div }
  | fuel + 1 =>
    let prev := machine fuel
    { tc := fun t v =>
        if ¬ containsTy t then .raised (.noUnit t)
        else
          match t with
          | .int => .ok (intCheck v)
          | .str => .ok (builtinCheck .str v)
          | .bool => .ok (builtinCheck .bool v)
          | .float => .ok (builtinCheck .float v)
          | .list te =>
            -- Rterable._type_check: any iterable except a set
            match pyIter v with
            | Option.none => .ok (some (.wrongType (.list te) v))
            | some xs =>
              if isSetVal v then .ok (some (.wrongType (.list te) v))
              else
                (outMapM (prev.tc te) xs).map (fun rs =>
                  let fails := enumFails rs
                  if fails.isEmpty then Option.none
                  else some (.keyValue (.list te)
                    (fails.map (fun p => (EKey.idx p.1, p.2))) v))
          | .set te =>
            -- Ret._type_check: hashability gate, then per-element checks,
            -- failures re-enumerated consecutively
            match pyIter v with
            | Option.none => .ok (some (.wrongType (.set te) v))
            | some xs =>
              match isHashableCheck (.set te) te v with
              | some e => .ok (some e)
              | Option.none =>
                (outMapM (prev.tc te) xs).map (fun rs =>
                  let fails := (rs.filterMap id).enum
                  if fails.isEmpty then Option.none
                  else some (.keyValue (.set te)
                    (fails.map (fun p => (EKey.idx p.1, p.2))) v))
          | .tuple targs =>
            -- Ruple._type_check: exact positional arity, then per-position
            if isDictVal v ∨ targs.isEmpty then .ok (some (.wrongType (.tuple targs) v))
            else
              match pyIter v with
              | Option.none => .ok (some (.wrongType (.tuple targs) v))
              | some xs =>
                if targs.length ≠ xs.length then .ok (some (.tupleArgLen (.tuple targs) v))
                else
                  (outMapM (fun p => prev.tc p.1 p.2) (targs.zip xs)).map (fun rs =>
                    let fails := enumFails rs
                    if fails.isEmpty then Option.none
                    else some (.keyValue (.tuple targs)
                      (fails.map (fun p => (EKey.idx p.1, p.2))) v))
          | .union targs =>
            -- Rnion._type_check: every member is checked; None unless all fail
            (outMapM (fun te => (prev.tc te v).map (fun r => (te, r))) targs).map
              (fun checks =>
                if checks.all (fun p => p.2.isSome) then
                  some (.keyValue (.union targs)
                    (checks.filterMap (fun p => p.2.map (fun e => (EKey.ty p.1, e)))) v)
                else Option.none)
          | .dict tk tv =>
            -- Rict._type_check: mapping shape, key hashability, per-entry checks
            if ¬ isMappingVal v then .ok (some (.wrongType (.dict tk tv) v))
            else
              match isHashableCheck (.dict tk tv) tk v with
              | some e => .ok (some e)
              | Option.none =>
                match pyItems v with
                | Option.none => .raised .pyTypeError
                | some kvs =>
                  (outMapM (fun kv =>
                      (prev.tc tk kv.1).bind (fun kr =>
                        (prev.tc tv kv.2).map (fun vr => (kr, vr)))) kvs).map
                    (fun rs =>
                      let keyFails := rs.filterMap (·.1)
                      let valFails := rs.filterMap (·.2)
                      if keyFails.isEmpty ∧ valFails.isEmpty then Option.none
                      else some (.keyValue (.dict tk tv)
                        (dictAggKvs tk tv keyFails valFails) v))
          | .cls c =>
            -- Complex.type_check: general_check then the resolved
            -- subclass's constructor check through the orchestrator
            (generalCheck false c v).bind (fun g =>
              match g with
              | .failed e => .ok (some e)
              | .already _ => .ok Option.none
              | .pass =>
                match v with
                | .params m =>
                  match resolveRu c m with
                  | some ru => prev.ctc ru m
                  | Option.none => .raised .pyKeyError
                | _ => .raised .pyTypeError)
          | .foreign _ => .raised (.noUnit t)
          | .dep _ _ => .raised (.noUnit t),
      fo := fun t v =>
        if ¬ containsTy t then .raised (.noUnit t)
        else
          match t with
          | .int => pyIntCtor v
          | .str => .ok (.str (pyStrOf v))
          | .bool => .ok (.bool (pyTruthy v))
          | .float => pyFloatCtor v
          | .list te =>
            -- Rterable._from_obj: a list comprehension over the iterable
            match pyIter v with
            | some xs => (outMapM (prev.fo te) xs).map .list
            | Option.none => .raised .pyTypeError
          | .set te =>
            -- Ret._from_obj: a set comprehension (unhashable constructed
            -- elements raise TypeError)
            match pyIter v with
            | some xs =>
              (outMapM (prev.fo te) xs).bind (fun ws =>
                if ws.all runtimeHashable then .ok (.set ws)
                else .raised .pyTypeError)
            | Option.none => .raised .pyTypeError
          | .tuple targs =>
            -- Ruple._from_obj: zip of argument types and elements
            match pyIter v with
            | some xs => (outMapM (fun p => prev.fo p.1 p.2) (targs.zip xs)).map .tuple
            | Option.none => .raised .pyTypeError
          | .union targs =>
            (unionFromLoop prev.tc prev.fo v targs).bind (fun res =>
              match res with
              | .inl w => .ok w
              | .inr fails =>
                .raised (.keyValue (.union targs)
                  (fails.map (fun p => (EKey.ty p.1, p.2))) v))
          | .dict tk tv =>
            -- Rict._from_obj: a dict comprehension over obj.items()
            match pyItems v with
            | some kvs =>
              (outMapM (fun kv =>
                  (prev.fo tk kv.1).bind (fun wk =>
                    (prev.fo tv kv.2).map (fun wv => (wk, wv)))) kvs).bind
                (fun ws =>
                  if ws.all (fun p => runtimeHashable p.1) then .ok (.dict ws)
                  else .raised .pyTypeError)
            | Option.none => .raised .pyTypeError
          | .cls c =>
            -- Complex.from_obj: general_check (instances short-circuit),
            -- then construction through the resolved subclass
            (generalCheck true c v).bind (fun g =>
              match g with
              | .failed e => .raised e
              | .already w => .ok w
              | .pass =>
                match v with
                | .params m =>
                  match resolveRu c m with
                  | some ru => (prev.cfo ru m).map (·.1)
                  | Option.none => .raised .pyKeyError
                | _ => .raised .pyTypeError)
          | .foreign _ => .raised (.noUnit t)
          | .dep _ _ => .raised (.noUnit t),
      ctc := fun c m =>
        -- BaseConstructorValue._type_check
        match checkParameterOrder c with
        | some e => .ok (some e)
        | Option.none =>
          match parameterConsistency c m with
          | some e => .ok (some e)
          | Option.none =>
            let keys := (parameterOrderOf c).getD (m.map (·.1))
            (ctcLoop prev.ptc c m keys).map (fun fails =>
              if fails.isEmpty then Option.none
              else some (.keyValue (.cls c)
                (fails.map (fun p => (EKey.str p.1, p.2))) (.params m))),
      cfo := fun c m =>
        -- BaseConstructorValue._from_obj: pop the discriminator, build the
        -- keyword arguments in order, write the discriminator back, call
        -- the constructor
        let t0 := ((lookupA m "type").map wrapRead).getD .none
        let m1 := eraseA m "type"
        match checkParameterOrder c with
        | some e => .raised e
        | Option.none =>
          let keys := (parameterOrderOf c).getD (m1.map (·.1))
          (cfoLoop prev.pfo c m1 keys []).bind (fun kwargs =>
            let m2 := setA m1 "type" t0
            (pyConstruct c kwargs).map (fun w => (w, m2))),
      ptc := fun t v =>
        -- ParameterValue dispatch: Identity._type_check short-circuits a
        -- value that is already an instance of an origin-free type
        if ¬ containsTy t then .raised (.noUnit t)
        else if ¬ hasOrigin t ∧ isinstancePy t v then .ok Option.none
        else prev.tc t v,
      pfo := fun t v =>
        -- Identity._from_obj: delegate to the orchestrator
        if ¬ containsTy t then .raised (.noUnit t)
        else prev.fo t v }

/-- `Base.type_check` at the given fuel. -/
def typeCheck (fuel : Nat) : Ty → Val → Out (Option Err) :=
  (machine fuel).tc

/-- `Base.from_obj` at the given fuel. -/
def fromObj (fuel : Nat) : Ty → Val → Out Val :=
  (machine fuel).fo

/-! ## The Alter pipeline (`src/adorn/orchestrator/base.py`)

An `Alter` is abstract in the source (`src/adorn/alter/alter.py`); the
model carries its two methods as functions.  `Base.a_get` collects every
alter claiming the (type, value) pair, evaluated on the original value;
`Base.alter_obj` then applies each collected alter in order, each to the
result of the previous application. -/

structure AlterM where
  aContains : Ty → Val → Bool
  alterObj : Ty → Val → Val

/-- `Base.a_get`: all the alters whose `a_contains` holds for the pair,
in the order the alters were passed. -/
def aGet (alters : List AlterM) (t : Ty) (v : Val) : List AlterM :=
  alters.filter (fun a => a.aContains t v)

/-- `Base.alter_obj`: fold the claiming alters over the value. -/
def alterObjBase (alters : List AlterM) (t : Ty) (v : Val) : Val :=
  (aGet alters t v).foldl (fun o a => a.alterObj t o) v

/-! ## Dependent literal-dict validation (`src/adorn/unit/parameter_value.py`)

The model of `Dependent.get_constructor`, `Dependent.get_args`,
`Dependent.check_literal_dict_keys` and `Dependent.check_literal_dict`
over a `DepParam`.  Python membership (`in`) and indexing semantics are
preserved: both raise `TypeError` on values that support neither. -/

/-- Python `s.split(".")` over the characters of a string: groups of
non-dot characters (an empty string yields one empty group, as in
Python). -/
def splitDotsChars : List Char → List (List Char)
  | [] => [[]]
  | c :: rest =>
    if c = '.' then [] :: splitDotsChars rest
    else
      match splitDotsChars rest with
      | [] => [[c]]
      | g :: gs => (c :: g) :: gs

/-- Python `s.split(".")`. -/
def splitDots (s : String) : List String :=
  (splitDotsChars s.toList).map (fun cs => String.mk cs)

/-- Does `pat` start the given character list? -/
def listStartsWith : List Char → List Char → Bool
  | [], _ => true
  | _ :: _, [] => false
  | p :: ps, c :: cs => p = c && listStartsWith ps cs

/-- Does `pat` occur contiguously in the given character list? -/
def listHasSub (pat : List Char) : List Char → Bool
  | [] => listStartsWith pat []
  | c :: cs => listStartsWith pat (c :: cs) || listHasSub pat cs

/-- Python `key in s` on a string: substring test. -/
def pySubstr (key s : String) : Bool :=
  listHasSub key.toList s.toList

/-- Python `key in container` for the model's values; raises `TypeError`
on non-containers. -/
def pyContainsV : Val → String → Out Bool
  | .params kvs, key => .ok (hasKeyA kvs key)
  | .dict kvs, key =>
    .ok (kvs.any (fun kv => match kv.1 with | .str s => s = key | _ => false))
  | .list xs, key =>
    .ok (xs.any (fun x => match x with | .str s => s = key | _ => false))
  | .tuple xs, key =>
    .ok (xs.any (fun x => match x with | .str s => s = key | _ => false))
  | .set xs, key =>
    .ok (xs.any (fun x => match x with | .str s => s = key | _ => false))
  | .str s, key => .ok (pySubstr key s)
  | _, _ => .raised .pyTypeError

/-- Python `container[key]` with a string key, after a successful
membership test: mappings index (a `Params` wraps the value read);
sequences raise `TypeError` on string subscripts. -/
def pyIndexV : Val → String → Out Val
  | .params kvs, key => .ok (paramsGet kvs key)
  | .dict kvs, key =>
    match kvs.find? (fun kv => match kv.1 with | .str s => s = key | _ => false) with
    | some kv => .ok kv.2
    | Option.none => .raised .pyKeyError
  | _, _ => .raised .pyTypeError

/-- Python `getattr(obj, key)` guarded by `hasattr`: the modeled
attributes of an instance are its constructor-stored fields. -/
def pyGetAttr : Val → String → Option Val
  | .inst _ fields, key => lookupA fields key
  | _, _ => Option.none

/-- The `while not_bad and idx < upper_bound` walk of
`Dependent.get_args`: mapping membership plus indexing on the first step
(and on every step for the type-check-time variant), attribute access on
the later steps of the from-obj variant.  `remaining` counts the steps
left to the upper bound; `.ok none` models `not_bad = False` (the entry
is omitted), `.ok (some st)` a completed walk. -/
def depWalk (dfo : Bool) (keys : List String) : Nat → Nat → Val → Out (Option Val)
  | _, 0, state => .ok (some state)
  | idx, remaining + 1, state =>
    match keys.get? idx with
    | Option.none => .raised .pyKeyError
    | some key =>
      if idx = 0 ∨ ¬ dfo then
        (pyContainsV state key).bind (fun mem =>
          if mem then
            (pyIndexV state key).bind (fun st2 =>
              depWalk dfo keys (idx + 1) remaining st2)
          else .ok Option.none)
      else
        match pyGetAttr state key with
        | some st2 => depWalk dfo keys (idx + 1) remaining st2
        | Option.none => .ok Option.none

/-- `Dependent.get_args`: resolve each literal-dict path against the
local state, dropping entries whose walk fails. -/
def getArgsD (p : DepParam) (dfo : Bool) (maxDepth : Option Nat) :
    List (String × String) → Out (List (String × Val))
  | [] => .ok []
  | (k, v) :: rest =>
    let keys := splitDots v
    let ub := match maxDepth with
      | some d => if dfo then d else keys.length
      | Option.none => keys.length
    (depWalk dfo keys 0 ub (.params p.localState)).bind (fun res =>
      (getArgsD p dfo maxDepth rest).map (fun acc =>
        match res with
        | some st => (k, st) :: acc
        | Option.none => acc))

/-- `Dependent.get_constructor`: resolve the wrapped class's descendant
named by the value's discriminator (`none` models the `KeyError` the
source raises when the discriminator is absent or unresolvable). -/
def getConstructorD (p : DepParam) (obj : List (String × Val)) : Option CName :=
  match paramsItem obj "type" with
  | some (.str s) => lookupA (childrenOf p.wrapped) s
  | _ => Option.none

/-- `Dependent.check_literal_dict_keys`: every requested entry must have
been resolved into `args` (the source computes the difference as a
Python set; the model keeps the literal-dict order). -/
def checkLiteralDictKeys (p : DepParam) (literalDict : List (String × String))
    (args : List (String × Val)) : Option Err :=
  if (literalDict.filter (fun kv => ! hasKeyA args kv.1)).isEmpty then Option.none
  else some (.missingDependency p
    (literalDict.filter (fun kv => ! hasKeyA args kv.1)))

/-- `Dependent.check_literal_dict`: extra keys, then too-deep paths, then
unresolvable paths, in that order. -/
def checkLiteralDict (p : DepParam) (obj : List (String × Val)) (dfo : Bool) :
    Out (Option Err) :=
  match getConstructorD p obj with
  | Option.none => .raised .pyKeyError
  | some ctorC =>
    if ((p.literalDict.filter
        (fun kv => ! hasKeyA (parametersOf ctorC) kv.1)).map Prod.fst).isEmpty then
      if ((p.literalDict.filter
          (fun kv => 2 < (splitDots kv.2).length)).map Prod.snd).isEmpty then
        (getArgsD p dfo (if dfo then some 1 else Option.none) p.literalDict).bind
          (fun args => .ok (checkLiteralDictKeys p p.literalDict args))
      else .ok (some (.tooDeepLiteral p ((p.literalDict.filter
        (fun kv => 2 < (splitDots kv.2).length)).map Prod.snd)))
    else .ok (some (.extraLiteral p ((p.literalDict.filter
      (fun kv => ! hasKeyA (parametersOf ctorC) kv.1)).map Prod.fst)))

/-! ## Derived entry points and auxiliary notions used by the theorems -/

/-- `Base.type_check` on a `Constructor` target (dispatched to
`BaseConstructorValue._type_check`). -/
def ctorTypeCheck (fuel : Nat) : CName → List (String × Val) → Out (Option Err) :=
  (machine fuel).ctc

/-- `Base.from_obj` on a `Constructor` target (dispatched to
`BaseConstructorValue._from_obj`); the second component is the final
state of the input mapping. -/
def ctorFromObj (fuel : Nat) : CName → List (String × Val) →
    Out (Val × List (String × Val)) :=
  (machine fuel).cfo

/-- `Base.type_check` on a `Parameter` target (dispatched to
`Identity._type_check`). -/
def paramTypeCheck (fuel : Nat) : Ty → Val → Out (Option Err) :=
  (machine fuel).ptc

/-- `Base.from_obj` on a `Parameter` target (dispatched to
`Identity._from_obj`). -/
def paramFromObj (fuel : Nat) : Ty → Val → Out Val :=
  (machine fuel).pfo

/-! ## The Dependent parameter handler
(`DependentTypeCheck` in `src/adorn/unit/parameter_value.py`)

`Base.type_check` on a `Parameter` target resolves the handler through
`ParameterValue.get`: a `DependentTypeCheck[...]`-origin annotation with
a registered `Complex` first argument resolves to `DependentTypeCheck`,
any other annotation falls back to `Identity` (guarded by
`orchestrator.contains` on the annotation).  `DependentTypeCheck` runs
`perfunctory_type_check` (`check_args`, which the well-formed `.dep`
annotation passes structurally; `Complex.general_check` on the wrapped
class; `check_literal_dict`) and then shallow per-dependency checks and
a constructor check with the unfulfilled literal keys popped. -/

/-- Is the annotation a `Dependent`-origin wrapper? -/
def Ty.isDep : Ty → Bool
  | .dep _ _ => true
  | _ => false

/-- `ConstructorValue.check_parameter_order` over an explicit parameter
dict: the source reads `target_cls.parameters` from the `Constructor`
data object, which the dependent path pops entries from before its final
check (`machine.ctc` is the resolution at the freshly built, unpopped
constructor). -/
def checkParameterOrderW (c : CName) (ps : List (String × SigParam)) : Option Err :=
  match parameterOrderOf c with
  | Option.none => Option.none
  | some po =>
    let pk := ps.map (·.1)
    let tooFew := pk.filter (fun k => ¬ po.contains k)
    let tooMany := po.filter (fun k => ¬ pk.contains k)
    if tooFew.isEmpty ∧ tooMany.isEmpty then Option.none
    else some (.parameterOrder c tooFew tooMany)

/-- `ConstructorValue.parameter_consistency` over an explicit parameter
dict (see `checkParameterOrderW`). -/
def parameterConsistencyW (c : CName) (ps : List (String × SigParam))
    (m : List (String × Val)) : Option Err :=
  let pkv := ps.filterMap (fun kp =>
    if kp.1 = "self" ∨ kp.2.default.isSome then Option.none
    else if hasKeyA m kp.1 then Option.none
    else some (kp.1, kp.2.anno))
  let okv := m.filterMap (fun kv =>
    if kv.1 = "type" then Option.none
    else if hasKeyA ps kv.1 then Option.none
    else some (kv.1, pyTypeName (wrapRead kv.2)))
  if pkv.isEmpty ∧ okv.isEmpty then Option.none
  else some (.keyValueDiff c pkv okv (.params m))

/-- The loop of `ConstructorValue.dict_type_check` over an explicit
parameter dict (see `checkParameterOrderW`). -/
def ctcLoopW (ptc1 : Ty → Val → Out (Option Err))
    (ps : List (String × SigParam)) (m : List (String × Val)) :
    List String → Out (List (String × Err))
  | [] => .ok []
  | k :: ks =>
    if hasKeyA m k ∧ k ≠ "type" then
      match lookupA ps k with
      | Option.none => .raised .pyKeyError
      | some sp =>
        (ptc1 sp.anno (paramsGet m k)).bind (fun r =>
          (ctcLoopW ptc1 ps m ks).map (fun rest =>
            match r with
            | Option.none => rest
            | some e => (k, e) :: rest))
    else ctcLoopW ptc1 ps m ks

/-- `Base.type_check` on a `Constructor` data object carrying an explicit
(possibly popped) parameter dict (`BaseConstructorValue._type_check`).
The per-parameter loop dispatches each `Parameter` through
`ParameterValue.get`; the popped constructors the dependent path builds
are fixture constructors, whose annotations all resolve to `Identity`
(`fixture_dispatch_identity`), so the loop runs the `Identity` engine. -/
def ctcW : Nat → CName → List (String × SigParam) → List (String × Val) →
    Out (Option Err)
  | 0, _, _, _ => .div
  | fuel + 1, c, ps, m =>
    match checkParameterOrderW c ps with
    | some e => .ok (some e)
    | Option.none =>
      match parameterConsistencyW c ps m with
      | some e => .ok (some e)
      | Option.none =>
        (ctcLoopW (paramTypeCheck fuel) ps m
            ((parameterOrderOf c).getD (m.map (fun kv => kv.1)))).map (fun fails =>
          if fails.isEmpty then Option.none
          else some (.keyValue (.cls c)
            (fails.map (fun p => (EKey.str p.1, p.2))) (.params m)))

/-- The per-dependency loop of `DependentTypeCheck._type_check`: the
resolved state is read back through a `Params` (wrapping each value),
`orchestrator.get` on an unrepresented annotation raises, an
already-instantiated value passes, a `Complex` annotation gets only the
shallow `general_check`, and anything else re-enters the orchestrator. -/
def depArgChecks (fuel : Nat) (ctorC : CName) :
    List (String × Val) → Out (List (String × Err))
  | [] => .ok []
  | (k, v0) :: rest =>
    match lookupA (parametersOf ctorC) k with
    | Option.none => .raised .pyKeyError
    | some sp =>
      (if ¬ containsTy sp.anno then (.raised (.noUnit sp.anno) : Out (Option Err))
       else if ¬ hasOrigin sp.anno ∧ isinstancePy sp.anno (wrapRead v0) then
         .ok Option.none
       else
         match sp.anno with
         | .cls c2 =>
           (generalCheck false c2 (wrapRead v0)).map (fun g =>
             match g with
             | .failed e => some e
             | _ => Option.none)
         | t2 => typeCheck fuel t2 (wrapRead v0)).bind (fun r =>
        (depArgChecks fuel ctorC rest).map (fun acc =>
          match r with
          | some e => (k, e) :: acc
          | Option.none => acc))

/-- The tail of `DependentTypeCheck._type_check` after
`perfunctory_type_check` passes: re-resolve the constructor, re-walk the
literal paths, shallow-check each resolved dependency (aggregating
failures in a `KeyValueError`), then type check the constructor with the
literal keys absent from the value popped from its parameter dict. -/
def depTail (fuel : Nat) (w : CName) (ld : List (String × String))
    (ls m : List (String × Val)) : Out (Option Err) :=
  match getConstructorD ⟨w, ld, ls⟩ m with
  | Option.none => .raised .pyKeyError
  | some ctorC =>
    (getArgsD ⟨w, ld, ls⟩ false Option.none ld).bind (fun args =>
      (depArgChecks fuel ctorC args).bind (fun bad =>
        if ¬ bad.isEmpty then
          .ok (some (.keyValue (.dep w ld)
            (bad.map (fun p => (EKey.str p.1, p.2))) (.params m)))
        else
          ctcW fuel ctorC
            (ld.foldl (fun ps kv =>
              if hasKeyA m kv.1 then ps else eraseA ps kv.1)
              (parametersOf ctorC)) m))

/-- `Base.type_check` on a `Parameter` target: the full
`ParameterValue.get` dispatch.  A `DependentTypeCheck[...]` annotation
with a registered wrapped class (every fixture class subclasses
`Complex`) resolves to `DependentTypeCheck._type_check`; with an
unregistered wrapped class no handler claims the parameter and
`Base.get` raises; any other annotation resolves to the `Identity`
handler, the machine's `ptc`.  `ls` is the `Parameter`'s `local_state`
(`dict_type_check` passes the configuration mapping); `Identity` ignores
it.  In the `DependentTypeCheck` branch, `general_check` without
`is_from_obj` never short-circuits on an instance
(`generalCheck_false_no_already`) and only passes on a `Params` value,
so the `.already` and non-`Params` arms are unreachable. -/
def pvTypeCheck (fuel : Nat) (t : Ty) (ls : List (String × Val)) (v : Val) :
    Out (Option Err) :=
  match fuel with
  | 0 => .div
  | fuel2 + 1 =>
    match t with
    | .dep w ld =>
      if ¬ containsCls w then .raised (.noUnit (.dep w ld))
      else
        (generalCheck false w v).bind (fun g =>
          match g with
          | .failed e => .ok (some e)
          | .already _ => .ok Option.none
          | .pass =>
            match v with
            | .params m =>
              (checkLiteralDict ⟨w, ld, ls⟩ m false).bind (fun r =>
                match r with
                | some e => .ok (some e)
                | Option.none => depTail fuel2 w ld ls m)
            | _ => .raised .pyTypeError)
    | t2 => paramTypeCheck (fuel2 + 1) t2 v

/-- The outcome is not a raised exception (normal return or fuel
exhaustion). -/
def Out.notRaised (o : Out α) : Prop :=
  ∀ e, o ≠ .raised e

/-- The first member (in declared order) whose recorded check returned
`None` -- the spec's tie-break rule for `Union` construction. -/
def firstValidating (checks : List (Ty × Option Err)) : Option Ty :=
  (checks.find? (fun p => p.2.isNone)).map (·.1)

/-- A demonstration `Alter` claiming every pair and incrementing integer
values. -/
def alterInc : AlterM :=
  { aContains := fun _ _ => true,
    alterObj := fun _ v => match v with | .int n => .int (n + 1) | w => w }

/-- A demonstration `Alter` claiming every pair and multiplying integer
values by ten. -/
def alterTen : AlterM :=
  { aContains := fun _ _ => true,
    alterObj := fun _ v => match v with | .int n => .int (n * 10) | w => w }

/-! ## Toolkit lemmas -/

@[simp] theorem Out.bind_ok (a : α) (f : α → Out β) : (Out.ok a).bind f = f a := rfl

@[simp] theorem Out.bind_raised (e : Err) (f : α → Out β) :
    (Out.raised e).bind f = .raised e := rfl

@[simp] theorem Out.bind_div (f : α → Out β) : (Out.div : Out α).bind f = .div := rfl

@[simp] theorem Out.map_ok (a : α) (f : α → β) : (Out.ok a).map f = .ok (f a) := rfl

@[simp] theorem Out.map_raised (e : Err) (f : α → β) :
    (Out.raised e : Out α).map f = .raised e := rfl

@[simp] theorem Out.map_div (f : α → β) : (Out.div : Out α).map f = .div := rfl

/-- A mapped outcome raises exactly when the original does. -/
theorem Out.map_notRaised {o : Out α} (f : α → β) (h : o.notRaised) :
    (o.map f).notRaised := by
  intro e
  cases o with
  | ok a => simp [Out.map]
  | raised e2 => exact absurd rfl (h e2)
  | div => simp [Out.map]

/-- A bound outcome does not raise when neither stage does. -/
theorem Out.bind_notRaised {o : Out α} {f : α → Out β} (h : o.notRaised)
    (hf : ∀ a, o = .ok a → (f a).notRaised) : (o.bind f).notRaised := by
  intro e
  cases o with
  | ok a => exact hf a rfl e
  | raised e2 => exact absurd rfl (h e2)
  | div => simp [Out.bind]

@[simp] theorem outMapM_nil (f : α → Out β) : outMapM f [] = .ok [] := rfl

theorem outMapM_cons (f : α → Out β) (x : α) (xs : List α) :
    outMapM f (x :: xs)
      = (f x).bind (fun b => (outMapM f xs).map (fun bs => b :: bs)) := rfl

/-- Decompose a successful effectful map: every element maps to the
corresponding result. -/
theorem outMapM_ok_mem {f : α → Out β} {xs : List α} {rs : List β}
    (h : outMapM f xs = .ok rs) : ∀ x ∈ xs, ∃ r ∈ rs, f x = .ok r := by
  induction xs generalizing rs with
  | nil => intro x hx; cases hx
  | cons y ys ih =>
    intro x hx
    rw [outMapM_cons] at h
    cases hy : f y with
    | ok b =>
      rw [hy] at h
      simp only [Out.bind_ok] at h
      cases hys : outMapM f ys with
      | ok bs =>
        rw [hys] at h
        simp only [Out.map_ok, Out.ok.injEq] at h
        cases h
        cases hx with
        | head => exact ⟨b, List.mem_cons_self _ _, hy⟩
        | tail w hx2 =>
          obtain ⟨r, hr, hfr⟩ := ih hys _ hx2
          exact ⟨r, List.mem_cons_of_mem _ hr, hfr⟩
      | raised e => rw [hys] at h; simp [Out.map] at h
      | div => rw [hys] at h; simp [Out.map] at h
    | raised e => rw [hy] at h; simp [Out.bind] at h
    | div => rw [hy] at h; simp [Out.bind] at h

/-- An effectful map does not raise when no element's run does. -/
theorem outMapM_notRaised {f : α → Out β} {xs : List α}
    (h : ∀ x ∈ xs, (f x).notRaised) : (outMapM f xs).notRaised := by
  induction xs with
  | nil => intro e; simp [outMapM]
  | cons y ys ih =>
    rw [outMapM_cons]
    refine Out.bind_notRaised (h y (List.mem_cons_self _ _)) ?_
    intro a _
    exact Out.map_notRaised _ (ih (fun x hx => h x (List.mem_cons_of_mem _ hx)))

/-- A successful effectful map at a cons input splits. -/
theorem outMapM_ok_cons {f : α → Out β} {x : α} {xs : List α} {rs : List β}
    (h : outMapM f (x :: xs) = .ok rs) :
    ∃ b bs, f x = .ok b ∧ outMapM f xs = .ok bs ∧ rs = b :: bs := by
  rw [outMapM_cons] at h
  cases hy : f x with
  | ok b =>
    rw [hy] at h
    simp only [Out.bind_ok] at h
    cases hys : outMapM f xs with
    | ok bs =>
      rw [hys] at h
      simp only [Out.map_ok, Out.ok.injEq] at h
      exact ⟨b, bs, rfl, rfl, h.symm⟩
    | raised e => rw [hys] at h; simp [Out.map] at h
    | div => rw [hys] at h; simp [Out.map] at h
  | raised e => rw [hy] at h; simp [Out.bind] at h
  | div => rw [hy] at h; simp [Out.bind] at h

/-- `enumFailsFrom` is empty exactly when every check passed. -/
theorem enumFailsFrom_eq_nil {rs : List (Option Err)} :
    ∀ i, enumFailsFrom i rs = [] ↔ ∀ r ∈ rs, r = Option.none := by
  induction rs with
  | nil => intro i; simp [enumFailsFrom]
  | cons r rest ih =>
    intro i
    cases r with
    | none => simp [enumFailsFrom, ih (i + 1)]
    | some e => simp [enumFailsFrom]

/-- The keys of `enumFailsFrom i rs` are exactly `i + j` for the
positions `j` where the check failed. -/
theorem mem_enumFailsFrom_keys {rs : List (Option Err)} :
    ∀ i k, k ∈ (enumFailsFrom i rs).map Prod.fst ↔
      ∃ j e, rs.get? j = some (some e) ∧ k = i + j := by
  induction rs with
  | nil => intro i k; simp [enumFailsFrom]
  | cons r rest ih =>
    intro i k
    cases r with
    | none =>
      simp only [enumFailsFrom, ih (i + 1)]
      constructor
      · rintro ⟨j, e, hj, rfl⟩
        exact ⟨j + 1, e, by simpa using hj, by omega⟩
      · rintro ⟨j, e, hj, rfl⟩
        cases j with
        | zero => simp at hj
        | succ j2 =>
          exact ⟨j2, e, by simpa using hj, by omega⟩
    | some e0 =>
      simp only [enumFailsFrom, List.map_cons, List.mem_cons, ih (i + 1)]
      constructor
      · rintro (rfl | ⟨j, e, hj, rfl⟩)
        · exact ⟨0, e0, rfl, by omega⟩
        · exact ⟨j + 1, e, by simpa using hj, by omega⟩
      · rintro ⟨j, e, hj, rfl⟩
        cases j with
        | zero => simp at hj; subst hj; left; omega
        | succ j2 =>
          right; exact ⟨j2, e, by simpa using hj, by omega⟩

/-! ## Claim theorems -/

/-! ### Unfolding lemmas for the machine branches (all definitional) -/

theorem tc_zero (t : Ty) (v : Val) : typeCheck 0 t v = .div := rfl

theorem fo_zero (t : Ty) (v : Val) : fromObj 0 t v = .div := rfl

theorem ctc_zero (c : CName) (m : List (String × Val)) :
    ctorTypeCheck 0 c m = .div := rfl

theorem cfo_zero (c : CName) (m : List (String × Val)) :
    ctorFromObj 0 c m = .div := rfl

theorem ptc_zero (t : Ty) (v : Val) : paramTypeCheck 0 t v = .div := rfl

theorem pfo_zero (t : Ty) (v : Val) : paramFromObj 0 t v = .div := rfl

theorem tc_int_eq (fuel : Nat) (v : Val) :
    typeCheck (fuel + 1) .int v = .ok (intCheck v) := rfl

theorem tc_float_eq (fuel : Nat) (v : Val) :
    typeCheck (fuel + 1) .float v = .ok (builtinCheck .float v) := rfl

theorem tc_foreign_eq (fuel : Nat) (s : String) (v : Val) :
    typeCheck (fuel + 1) (.foreign s) v = .raised (.noUnit (.foreign s)) := rfl

theorem tc_set_eq (fuel : Nat) (te : Ty) (v : Val) :
    typeCheck (fuel + 1) (.set te) v =
      if ¬ containsTy te then .raised (.noUnit (.set te))
      else
        match pyIter v with
        | Option.none => .ok (some (.wrongType (.set te) v))
        | some xs =>
          match isHashableCheck (.set te) te v with
          | some e => .ok (some e)
          | Option.none =>
            (outMapM (typeCheck fuel te) xs).map (fun rs =>
              let fails := (rs.filterMap id).enum
              if fails.isEmpty then Option.none
              else some (.keyValue (.set te)
                (fails.map (fun p => (EKey.idx p.1, p.2))) v)) := rfl

theorem tc_tuple_eq (fuel : Nat) (targs : List Ty) (v : Val) :
    typeCheck (fuel + 1) (.tuple targs) v =
      if ¬ containsTyList targs then .raised (.noUnit (.tuple targs))
      else
        if isDictVal v ∨ targs.isEmpty then .ok (some (.wrongType (.tuple targs) v))
        else
          match pyIter v with
          | Option.none => .ok (some (.wrongType (.tuple targs) v))
          | some xs =>
            if targs.length ≠ xs.length then .ok (some (.tupleArgLen (.tuple targs) v))
            else
              (outMapM (fun p => typeCheck fuel p.1 p.2) (targs.zip xs)).map (fun rs =>
                let fails := enumFails rs
                if fails.isEmpty then Option.none
                else some (.keyValue (.tuple targs)
                  (fails.map (fun p => (EKey.idx p.1, p.2))) v)) := rfl

theorem tc_dict_eq (fuel : Nat) (tk tv : Ty) (v : Val) :
    typeCheck (fuel + 1) (.dict tk tv) v =
      if ¬ (containsTy tk && containsTy tv) then .raised (.noUnit (.dict tk tv))
      else
        if ¬ isMappingVal v then .ok (some (.wrongType (.dict tk tv) v))
        else
          match isHashableCheck (.dict tk tv) tk v with
          | some e => .ok (some e)
          | Option.none =>
            match pyItems v with
            | Option.none => .raised .pyTypeError
            | some kvs =>
              (outMapM (fun kv =>
                  (typeCheck fuel tk kv.1).bind (fun kr =>
                    (typeCheck fuel tv kv.2).map (fun vr => (kr, vr)))) kvs).map
                (fun rs : List (Option Err × Option Err) =>
                  let keyFails := rs.filterMap (fun p => p.1)
                  let valFails := rs.filterMap (fun p => p.2)
                  if keyFails.isEmpty ∧ valFails.isEmpty then Option.none
                  else some (.keyValue (.dict tk tv)
                    (dictAggKvs tk tv keyFails valFails) v)) := rfl

theorem tc_cls_eq (fuel : Nat) (c : CName) (v : Val) :
    typeCheck (fuel + 1) (.cls c) v =
      if ¬ containsCls c then .raised (.noUnit (.cls c))
      else
        (generalCheck false c v).bind (fun g =>
          match g with
          | .failed e => .ok (some e)
          | .already _ => .ok Option.none
          | .pass =>
            match v with
            | .params m =>
              match resolveRu c m with
              | some ru => ctorTypeCheck fuel ru m
              | Option.none => .raised .pyKeyError
            | _ => .raised .pyTypeError) := rfl

theorem fo_int_eq (fuel : Nat) (v : Val) :
    fromObj (fuel + 1) .int v = pyIntCtor v := rfl

theorem fo_str_eq (fuel : Nat) (v : Val) :
    fromObj (fuel + 1) .str v = .ok (.str (pyStrOf v)) := rfl

theorem fo_bool_eq (fuel : Nat) (v : Val) :
    fromObj (fuel + 1) .bool v = .ok (.bool (pyTruthy v)) := rfl

theorem fo_float_eq (fuel : Nat) (v : Val) :
    fromObj (fuel + 1) .float v = pyFloatCtor v := rfl

theorem fo_list_eq (fuel : Nat) (te : Ty) (v : Val) :
    fromObj (fuel + 1) (.list te) v =
      if ¬ containsTy te then .raised (.noUnit (.list te))
      else
        match pyIter v with
        | some xs => (outMapM (fromObj fuel te) xs).map .list
        | Option.none => .raised .pyTypeError := rfl

theorem fo_set_eq (fuel : Nat) (te : Ty) (v : Val) :
    fromObj (fuel + 1) (.set te) v =
      if ¬ containsTy te then .raised (.noUnit (.set te))
      else
        match pyIter v with
        | some xs =>
          (outMapM (fromObj fuel te) xs).bind (fun ws =>
            if ws.all runtimeHashable then .ok (.set ws)
            else .raised .pyTypeError)
        | Option.none => .raised .pyTypeError := rfl

theorem fo_tuple_eq (fuel : Nat) (targs : List Ty) (v : Val) :
    fromObj (fuel + 1) (.tuple targs) v =
      if ¬ containsTyList targs then .raised (.noUnit (.tuple targs))
      else
        match pyIter v with
        | some xs =>
          (outMapM (fun p => fromObj fuel p.1 p.2) (targs.zip xs)).map .tuple
        | Option.none => .raised .pyTypeError := rfl

theorem fo_dict_eq (fuel : Nat) (tk tv : Ty) (v : Val) :
    fromObj (fuel + 1) (.dict tk tv) v =
      if ¬ (containsTy tk && containsTy tv) then .raised (.noUnit (.dict tk tv))
      else
        match pyItems v with
        | some kvs =>
          (outMapM (fun kv =>
              (fromObj fuel tk kv.1).bind (fun wk =>
                (fromObj fuel tv kv.2).map (fun wv => (wk, wv)))) kvs).bind
            (fun ws =>
              if ws.all (fun p => runtimeHashable p.1) then .ok (.dict ws)
              else .raised .pyTypeError)
        | Option.none => .raised .pyTypeError := rfl

theorem fo_cls_eq (fuel : Nat) (c : CName) (v : Val) :
    fromObj (fuel + 1) (.cls c) v =
      if ¬ containsCls c then .raised (.noUnit (.cls c))
      else
        (generalCheck true c v).bind (fun g =>
          match g with
          | .failed e => .raised e
          | .already w => .ok w
          | .pass =>
            match v with
            | .params m =>
              match resolveRu c m with
              | some ru => (ctorFromObj fuel ru m).map (fun p => p.1)
              | Option.none => .raised .pyKeyError
            | _ => .raised .pyTypeError) := rfl

theorem fo_foreign_eq (fuel : Nat) (s : String) (v : Val) :
    fromObj (fuel + 1) (.foreign s) v = .raised (.noUnit (.foreign s)) := rfl

theorem ctc_succ_eq (fuel : Nat) (c : CName) (m : List (String × Val)) :
    ctorTypeCheck (fuel + 1) c m =
      match checkParameterOrder c with
      | some e => .ok (some e)
      | Option.none =>
        match parameterConsistency c m with
        | some e => .ok (some e)
        | Option.none =>
          (ctcLoop (paramTypeCheck fuel) c m
              ((parameterOrderOf c).getD (m.map (fun kv => kv.1)))).map (fun fails =>
            if fails.isEmpty then Option.none
            else some (.keyValue (.cls c)
              (fails.map (fun p => (EKey.str p.1, p.2))) (.params m))) := rfl

theorem cfo_succ_eq (fuel : Nat) (c : CName) (m : List (String × Val)) :
    ctorFromObj (fuel + 1) c m =
      match checkParameterOrder c with
      | some e => .raised e
      | Option.none =>
        (cfoLoop (paramFromObj fuel) c (eraseA m "type")
            ((parameterOrderOf c).getD ((eraseA m "type").map (fun kv => kv.1))) []).bind
          (fun kwargs =>
            (pyConstruct c kwargs).map (fun w =>
              (w, setA (eraseA m "type") "type"
                (((lookupA m "type").map wrapRead).getD .none)))) := rfl

theorem ptc_succ_eq (fuel : Nat) (t : Ty) (v : Val) :
    paramTypeCheck (fuel + 1) t v =
      if ¬ containsTy t then .raised (.noUnit t)
      else if ¬ hasOrigin t ∧ isinstancePy t v then .ok Option.none
      else typeCheck fuel t v := rfl

theorem pfo_succ_eq (fuel : Nat) (t : Ty) (v : Val) :
    paramFromObj (fuel + 1) t v =
      if ¬ containsTy t then .raised (.noUnit t)
      else fromObj fuel t v := rfl

/-- Unfolding of the orchestrator's `type_check` at a parameterized list
target (`Rterable._type_check` behind `Base.type_check`). -/
theorem tc_list_eq (fuel : Nat) (te : Ty) (v : Val) :
    typeCheck (fuel + 1) (.list te) v =
      if ¬ containsTy te then .raised (.noUnit (.list te))
      else
        match pyIter v with
        | Option.none => .ok (some (.wrongType (.list te) v))
        | some xs =>
          if isSetVal v then .ok (some (.wrongType (.list te) v))
          else
            (outMapM (typeCheck fuel te) xs).map (fun rs =>
              let fails := enumFails rs
              if fails.isEmpty then Option.none
              else some (.keyValue (.list te)
                (fails.map (fun p => (EKey.idx p.1, p.2))) v)) := rfl

/-- C4: `type_check(int, b)` returns a `WrongTypeError` for every bool
value `b` (bool is excluded from int by `Int.additional_checks` even
though `isinstance(b, int)` holds), while `type_check(bool, b)` returns
`None`; in particular at `b = True`. -/
theorem c4_bool_int_exclusion (fuel : Nat) (b : Bool) :
    typeCheck (fuel + 1) .int (.bool b) = .ok (some (.wrongType .int (.bool b))) ∧
    typeCheck (fuel + 1) .bool (.bool b) = .ok Option.none := by
  exact ⟨rfl, rfl⟩

/-- Inverting a successful mapped outcome. -/
theorem Out.map_eq_ok {o : Out α} {f : α → β} {b : β}
    (h : o.map f = .ok b) : ∃ a, o = .ok a ∧ f a = b := by
  cases o with
  | ok a => exact ⟨a, rfl, by simpa [Out.map] using h⟩
  | raised e => simp [Out.map] at h
  | div => simp [Out.map] at h

/-- Mapping twice composes. -/
theorem Out.map_map (o : Out α) (f : α → β) (g : β → γ) :
    (o.map f).map g = o.map (fun a => g (f a)) := by
  cases o <;> rfl

/-- Unfolding of the orchestrator's `type_check` at a `Union` target
(`Rnion._type_check` behind `Base.type_check`). -/
theorem tc_union_eq (fuel : Nat) (ts : List Ty) (v : Val) :
    typeCheck (fuel + 1) (.union ts) v =
      if ¬ containsTyList ts then .raised (.noUnit (.union ts))
      else
        (outMapM (fun te => (typeCheck fuel te v).map (fun r => (te, r))) ts).map
          (fun checks =>
            if checks.all (fun p => p.2.isSome) then
              some (.keyValue (.union ts)
                (checks.filterMap (fun p => p.2.map (fun e => (EKey.ty p.1, e)))) v)
            else Option.none) := rfl

/-- Unfolding of the orchestrator's `from_obj` at a `Union` target
(`Rnion._from_obj` behind `Base.from_obj`). -/
theorem fo_union_eq (fuel : Nat) (ts : List Ty) (v : Val) :
    fromObj (fuel + 1) (.union ts) v =
      if ¬ containsTyList ts then .raised (.noUnit (.union ts))
      else
        (unionFromLoop (typeCheck fuel) (fromObj fuel) v ts).bind (fun res =>
          match res with
          | .inl w => .ok w
          | .inr fails =>
            .raised (.keyValue (.union ts)
              (fails.map (fun p => (EKey.ty p.1, p.2))) v)) := rfl

theorem firstValidating_nil : firstValidating [] = Option.none := rfl

theorem firstValidating_cons_none (t : Ty) (bs : List (Ty × Option Err)) :
    firstValidating ((t, Option.none) :: bs) = some t := rfl

theorem firstValidating_cons_some (t : Ty) (e : Err) (bs : List (Ty × Option Err)) :
    firstValidating ((t, some e) :: bs) = firstValidating bs := rfl

/-- The construction loop of `Rnion._from_obj`, characterized by the
recorded member checks: it constructs through the first member whose
check returned `None`, and collects every member's failure otherwise. -/
theorem unionFromLoop_spec (tc1 : Ty → Val → Out (Option Err))
    (fo1 : Ty → Val → Out Val) (v : Val) :
    ∀ (ts : List Ty) (checks : List (Ty × Option Err)),
    outMapM (fun te => (tc1 te v).map (fun r => (te, r))) ts = .ok checks →
    (∀ t0, firstValidating checks = some t0 →
      unionFromLoop tc1 fo1 v ts = (fo1 t0 v).map Sum.inl) ∧
    (firstValidating checks = Option.none →
      unionFromLoop tc1 fo1 v ts
        = .ok (.inr (checks.filterMap (fun p => p.2.map (fun e => (p.1, e)))))) := by
  intro ts
  induction ts with
  | nil =>
    intro checks h
    simp only [outMapM_nil, Out.ok.injEq] at h
    cases h
    refine ⟨fun t0 h0 => ?_, fun _ => rfl⟩
    rw [firstValidating_nil] at h0
    cases h0
  | cons t rest ih =>
    intro checks h
    obtain ⟨b, bs, hb, hbs, rfl⟩ := outMapM_ok_cons h
    obtain ⟨r, hr, rfl⟩ := Out.map_eq_ok hb
    cases r with
    | none =>
      refine ⟨fun t0 h0 => ?_, fun h0 => ?_⟩
      · rw [firstValidating_cons_none] at h0
        cases h0
        show (tc1 t v).bind _ = _
        rw [hr]
        rfl
      · rw [firstValidating_cons_none] at h0
        cases h0
    | some e =>
      obtain ⟨ihSome, ihNone⟩ := ih bs hbs
      refine ⟨fun t0 h0 => ?_, fun h0 => ?_⟩
      · rw [firstValidating_cons_some] at h0
        show (tc1 t v).bind _ = _
        rw [hr]
        simp only [Out.bind_ok]
        rw [ihSome t0 h0, Out.map_map]
      · rw [firstValidating_cons_some] at h0
        show (tc1 t v).bind _ = _
        rw [hr]
        simp only [Out.bind_ok]
        rw [ihNone h0]
        rfl

/-- C1: `type_check` on a `Union` returns `None` exactly when at least
one member's check returns `None`, and aggregates every member's failure
keyed by member type when all fail; `from_obj` constructs through the
first member (in declared order) whose check returns `None`, and raises
the aggregate of all member failures when none validates.  The
hypothesis `hmem` records the member check outcomes (all of which are
run by `_type_check`). -/
theorem c1_union_semantics (fuel : Nat) (ts : List Ty) (v : Val)
    (checks : List (Ty × Option Err))
    (hcon : containsTyList ts = true)
    (hmem : outMapM (fun te => (typeCheck fuel te v).map (fun r => (te, r))) ts
      = .ok checks) :
    (typeCheck (fuel + 1) (.union ts) v = .ok Option.none ↔
      ∃ p ∈ checks, p.2 = Option.none) ∧
    (checks.all (fun p => p.2.isSome) = true →
      typeCheck (fuel + 1) (.union ts) v
        = .ok (some (.keyValue (.union ts)
            (checks.filterMap (fun p => p.2.map (fun e => (EKey.ty p.1, e)))) v))) ∧
    (∀ t0, firstValidating checks = some t0 →
      fromObj (fuel + 1) (.union ts) v = (fromObj fuel t0 v).map id) ∧
    (firstValidating checks = Option.none →
      fromObj (fuel + 1) (.union ts) v
        = .raised (.keyValue (.union ts)
            (checks.filterMap (fun p => p.2.map (fun e => (EKey.ty p.1, e)))) v)) := by
  have hloop := unionFromLoop_spec (typeCheck fuel) (fromObj fuel) v ts checks hmem
  refine ⟨?_, ?_, ?_, ?_⟩
  · rw [tc_union_eq]
    simp only [hcon, not_true_eq_false, if_false]
    rw [hmem]
    simp only [Out.map_ok, Out.ok.injEq]
    cases hall : checks.all (fun p => p.2.isSome) with
    | true =>
      simp only [if_true]
      constructor
      · intro h; cases h
      · rintro ⟨p, hp, hpnone⟩
        have := List.all_eq_true.mp hall p hp
        rw [hpnone] at this
        simp at this
    | false =>
      simp only [Bool.false_eq_true, if_false, true_iff]
      have := List.all_eq_false.mp hall
      obtain ⟨p, hp, hps⟩ := this
      refine ⟨p, hp, ?_⟩
      cases hv : p.2 with
      | none => rfl
      | some e => rw [hv] at hps; simp at hps
  · intro hall
    rw [tc_union_eq]
    simp only [hcon, not_true_eq_false, if_false]
    rw [hmem]
    simp only [Out.map_ok, hall, if_true]
  · intro t0 h0
    rw [fo_union_eq]
    simp only [hcon, not_true_eq_false, if_false]
    rw [hloop.1 t0 h0]
    cases fromObj fuel t0 v <;> rfl
  · intro h0
    rw [fo_union_eq]
    simp only [hcon, not_true_eq_false, if_false]
    rw [hloop.2 h0]
    simp only [Out.bind_ok, List.map_filterMap, Option.map_map]
    rfl

/-- C1 witness: `Union[int, str]` with the value `"5"`: `int` fails,
`str` validates, so `type_check` returns `None` and `from_obj`
constructs through `str` (the first validating member). -/
theorem c1_union_semantics_witness :
    (typeCheck 2 (.union [.int, .str]) (.str "5") = .ok Option.none ↔
      ∃ p ∈ [((Ty.int : Ty), some (Err.wrongType .int (.str "5"))),
             ((Ty.str : Ty), (Option.none : Option Err))], p.2 = Option.none) ∧
    fromObj 2 (.union [.int, .str]) (.str "5") = (fromObj 1 .str (.str "5")).map id := by
  have h := c1_union_semantics 1 [.int, .str] (.str "5")
    [(.int, some (.wrongType .int (.str "5"))), (.str, Option.none)] rfl rfl
  exact ⟨h.1, h.2.2.1 .str rfl⟩

/-- Looking up the erased key fails. -/
theorem lookupA_eraseA_self (l : List (String × α)) (k : String) :
    lookupA (eraseA l k) k = Option.none := by
  induction l with
  | nil => rfl
  | cons kv rest ih =>
    show lookupA (if kv.1 = k then _ else _) k = _
    by_cases h : kv.1 = k
    · simpa [h] using ih
    · simpa [eraseA, lookupA, h] using ih

/-- Erasing another key does not change a lookup. -/
theorem lookupA_eraseA_ne (l : List (String × α)) (k k2 : String) (h : k2 ≠ k) :
    lookupA (eraseA l k) k2 = lookupA l k2 := by
  induction l with
  | nil => rfl
  | cons kv rest ih =>
    show lookupA (if kv.1 = k then _ else _) k2 = _
    by_cases hk : kv.1 = k
    · rw [if_pos hk]
      rw [ih]
      have : ¬ (kv.1 = k2) := by rw [hk]; exact fun hc => h hc.symm
      simp [lookupA, this]
    · rw [if_neg hk]
      by_cases hk2 : kv.1 = k2
      · simp [lookupA, hk2]
      · simp [lookupA, hk2, ih]

/-- Looking up the key written by `setA` yields the written value. -/
theorem lookupA_setA_self (l : List (String × α)) (k : String) (a : α) :
    lookupA (setA l k a) k = some a := by
  induction l with
  | nil => simp [setA, lookupA]
  | cons kv rest ih =>
    show lookupA (if kv.1 = k then _ else _) k = _
    by_cases h : kv.1 = k
    · simp [h, lookupA]
    · simp [lookupA, h, ih]

/-- Writing another key does not change a lookup. -/
theorem lookupA_setA_ne (l : List (String × α)) (k k2 : String) (a : α)
    (h : k2 ≠ k) : lookupA (setA l k a) k2 = lookupA l k2 := by
  induction l with
  | nil => simp [setA, lookupA, Ne.symm h]
  | cons kv rest ih =>
    show lookupA (if kv.1 = k then _ else _) k2 = _
    by_cases hk : kv.1 = k
    · rw [if_pos hk]
      have h1 : ¬ (k = k2) := fun hc => h hc.symm
      have h2 : ¬ (kv.1 = k2) := by rw [hk]; exact h1
      simp [lookupA, h1, h2]
    · rw [if_neg hk]
      by_cases hk2 : kv.1 = k2
      · simp [lookupA, hk2]
      · simp [lookupA, hk2, ih]

/-- Lookup over an append takes the first hit. -/
theorem lookupA_append (l1 l2 : List (String × α)) (k : String) :
    lookupA (l1 ++ l2) k = (lookupA l1 k).or (lookupA l2 k) := by
  induction l1 with
  | nil => rfl
  | cons kv rest ih =>
    by_cases h : kv.1 = k
    · simp [lookupA, h]
    · simp [lookupA, h, ih]

/-- Lookup through the update half of the Python merge. -/
theorem lookupA_mergeUpdated (a b : List (String × α)) (k : String) :
    lookupA (a.map (fun kv => (kv.1, (lookupA b kv.1).getD kv.2))) k
      = (lookupA a k).map (fun v => (lookupA b k).getD v) := by
  induction a with
  | nil => rfl
  | cons kv rest ih =>
    by_cases h : kv.1 = k
    · subst h; simp [lookupA, ih]
    · simp [lookupA, h, ih]

/-- Lookup in the keys of `b` filtered to those absent from `a`. -/
theorem lookupA_filterNew (a b : List (String × α)) (k : String) :
    lookupA (b.filter (fun kv => ! hasKeyA a kv.1)) k
      = if hasKeyA a k then Option.none else lookupA b k := by
  induction b with
  | nil => simp [lookupA]
  | cons kv rest ih =>
    by_cases hk : kv.1 = k
    · subst hk
      by_cases ha : hasKeyA a kv.1
      · simp [ha, List.filter, lookupA, ih]
      · simp [ha, List.filter, lookupA]
    · by_cases ha : hasKeyA a kv.1
      · simp [ha, List.filter, lookupA, hk, ih]
      · simp [ha, List.filter, lookupA, hk, ih]

/-- The Python merge `{**a, **b}` looks up `b` first, then `a` (the
second mapping's entries take precedence). -/
theorem pyMerge_lookup (a b : List (String × α)) (k : String) :
    lookupA (pyMerge a b) k = (lookupA b k).or (lookupA a k) := by
  rw [pyMerge, lookupA_append, lookupA_mergeUpdated, lookupA_filterNew]
  cases ha : lookupA a k with
  | some v =>
    have : hasKeyA a k := by simp [hasKeyA, ha]
    cases hb : lookupA b k <;> simp [Option.or, this]
  | none =>
    have : ¬ hasKeyA a k := by simp [hasKeyA, ha]
    cases hb : lookupA b k <;> simp [Option.or, this]

/-- C7: when the constructor declares a `**kwargs` catch-all,
`infer_params` returns the constructor's own explicitly declared
parameters (with `self`, the var-positional entry and `kwargs` removed)
merged over the recursively inferred parameter set of the nearest
`Complex` ancestor in the MRO, and on a name collision the subclass's
own entry wins (lookup prefers `cleanedSig c`). -/
theorem c7_kwargs_merging (fuel : Nat) (c sup : CName)
    (hkw : hasVarKw (sigNoVariadic c) = true)
    (hsup : nearestComplexAncestor c = some sup) :
    inferParams (fuel + 1) c = pyMerge (inferParams fuel sup) (cleanedSig c) ∧
    (∀ k, lookupA (inferParams (fuel + 1) c) k
        = (lookupA (cleanedSig c) k).or (lookupA (inferParams fuel sup) k)) ∧
    lookupA (cleanedSig c) "kwargs" = Option.none ∧
    lookupA (cleanedSig c) "self" = Option.none := by
  have heq : inferParams (fuel + 1) c = pyMerge (inferParams fuel sup) (cleanedSig c) := by
    show (if ¬ hasVarKw (sigNoVariadic c) then sigNoVariadic c
          else match nearestComplexAncestor c with
            | some sup2 => pyMerge (inferParams fuel sup2) (cleanedSig c)
            | Option.none => pyMerge [] (cleanedSig c)) = _
    rw [hkw, hsup]
    simp
  refine ⟨heq, ?_, ?_, ?_⟩
  · intro k
    rw [heq, pyMerge_lookup]
  · exact lookupA_eraseA_self _ "kwargs"
  · rw [cleanedSig]
    rw [lookupA_eraseA_ne _ "kwargs" "self" (by decide)]
    rw [sigNoVariadic]
    cases hvp : varPositionalKey (eraseA (ownSig c) "self") with
    | none =>
      simp only []
      exact lookupA_eraseA_self _ "self"
    | some vk =>
      simp only []
      by_cases hv : vk = "self"
      · subst hv; exact lookupA_eraseA_self _ "self"
      · rw [lookupA_eraseA_ne _ vk "self" (fun hc => hv hc.symm)]
        exact lookupA_eraseA_self _ "self"

/-- C7 witness: `Child0` (which declares `**kwargs`) merges `ParentA`'s
recursively inferred parameters (themselves merged from `GrandParent`),
yielding parameters `gp`, `a`, `zero` with `zero` from the subclass. -/
theorem c7_kwargs_merging_witness :
    inferParams 8 .child0 = pyMerge (inferParams 7 .parentA) (cleanedSig .child0) ∧
    (parametersOf .child0).map Prod.fst = ["gp", "a", "zero"] :=
  ⟨(c7_kwargs_merging 7 .child0 .parentA rfl rfl).1, by decide⟩

/-- C10: `BaseConstructorValue._from_obj` pops the `type` key before the
per-parameter construction loop and writes it back afterwards, so on
successful construction every other key's binding is unchanged, a
mapping that had a (string) `type` key ends with its original value, and
a mapping that lacked a `type` key ends with `type` bound to `None`. -/
theorem c10_type_key_frame (fuel : Nat) (c : CName) (m : List (String × Val))
    (w : Val) (m2 : List (String × Val))
    (h : ctorFromObj fuel c m = .ok (w, m2)) :
    (∀ k, k ≠ "type" → lookupA m2 k = lookupA m k) ∧
    lookupA m2 "type" = some (((lookupA m "type").map wrapRead).getD .none) ∧
    (hasKeyA m "type" = false → lookupA m2 "type" = some .none) ∧
    (∀ s, lookupA m "type" = some (.str s) → lookupA m2 "type" = some (.str s)) := by
  have hm2 : m2 = setA (eraseA m "type") "type"
      (((lookupA m "type").map wrapRead).getD .none) := by
    cases fuel with
    | zero => cases h
    | succ f =>
      revert h
      show (match checkParameterOrder c with
        | some e => Out.raised e
        | Option.none =>
          (cfoLoop (machine f).pfo c (eraseA m "type")
              ((parameterOrderOf c).getD ((eraseA m "type").map
                (fun kv : String × Val => kv.1))) []).bind
            (fun kwargs =>
              (pyConstruct c kwargs).map (fun w2 =>
                (w2, setA (eraseA m "type") "type"
                  (((lookupA m "type").map wrapRead).getD .none))))) = .ok (w, m2) → _
      cases checkParameterOrder c with
      | some e => intro h; cases h
      | none =>
        cases cfoLoop (machine f).pfo c (eraseA m "type")
            ((parameterOrderOf c).getD ((eraseA m "type").map
              (fun kv : String × Val => kv.1))) [] with
        | ok kwargs =>
          simp only [Out.bind_ok]
          cases pyConstruct c kwargs with
          | ok w2 =>
            intro h
            simp only [Out.map_ok, Out.ok.injEq, Prod.mk.injEq] at h
            exact h.2.symm
          | raised e => intro h; cases h
          | div => intro h; cases h
        | raised e => intro h; cases h
        | div => intro h; cases h
  subst hm2
  refine ⟨?_, ?_, ?_, ?_⟩
  · intro k hk
    rw [lookupA_setA_ne _ "type" k _ hk, lookupA_eraseA_ne _ "type" k hk]
  · exact lookupA_setA_self _ _ _
  · intro habs
    rw [lookupA_setA_self]
    have : lookupA m "type" = Option.none := by
      cases hl : lookupA m "type" with
      | none => rfl
      | some v => rw [hasKeyA, hl] at habs; cases habs
    rw [this]
    rfl
  · intro s hs
    rw [lookupA_setA_self, hs]
    rfl

/-- C10 witness: constructing a `Pork` from
`{"type": "pork", "weight": 2.0}` leaves `weight` bound as before and
restores the original `type` value (now at the end of the mapping). -/
theorem c10_type_key_frame_witness :
    lookupA [("weight", Val.float 2), ("type", Val.str "pork")] "weight"
      = lookupA [("type", Val.str "pork"), ("weight", Val.float 2)] "weight" ∧
    lookupA [("weight", Val.float 2), ("type", Val.str "pork")] "type"
      = some (.str "pork") := by
  have h := c10_type_key_frame 3 .pork
    [("type", Val.str "pork"), ("weight", Val.float 2)]
    (.inst .pork [("weight", .float 2)])
    [("weight", Val.float 2), ("type", Val.str "pork")] rfl
  exact ⟨h.1 "weight" (by decide), h.2.2.2 "pork" rfl⟩

/-- C8 (amended): with the wrapped type's constructor resolved and the
path walk completing without raising (`hwalk`), the literal-mapping
validation reports, in order: an `ExtraLiteralError` listing the keys
that are not parameters of the resolved constructor; otherwise a
`TooDeepLiteralError` listing the path values splitting into more than
two dot-separated segments; otherwise a `MissingDependencyError` naming
the entries whose paths did not resolve; otherwise success.  (A path
step into a value that supports no membership test makes the walk raise
`TypeError` instead -- see the counterexample.) -/
theorem c8_literal_dict_stages (p : DepParam) (obj : List (String × Val))
    (dfo : Bool) (ctorC : CName) (args : List (String × Val))
    (hres : getConstructorD p obj = some ctorC)
    (hwalk : getArgsD p dfo (if dfo then some 1 else Option.none) p.literalDict
      = .ok args) :
    checkLiteralDict p obj dfo =
      if ((p.literalDict.filter
          (fun kv => ! hasKeyA (parametersOf ctorC) kv.1)).map Prod.fst).isEmpty then
        if ((p.literalDict.filter
            (fun kv => 2 < (splitDots kv.2).length)).map Prod.snd).isEmpty then
          if (p.literalDict.filter (fun kv => ! hasKeyA args kv.1)).isEmpty then
            .ok Option.none
          else .ok (some (.missingDependency p
            (p.literalDict.filter (fun kv => ! hasKeyA args kv.1))))
        else .ok (some (.tooDeepLiteral p ((p.literalDict.filter
          (fun kv => 2 < (splitDots kv.2).length)).map Prod.snd)))
      else .ok (some (.extraLiteral p ((p.literalDict.filter
        (fun kv => ! hasKeyA (parametersOf ctorC) kv.1)).map Prod.fst))) := by
  rw [checkLiteralDict, hres]
  simp only []
  rw [hwalk]
  simp only [Out.bind_ok, checkLiteralDictKeys, apply_ite Out.ok]

/-- C8 witness: a well-formed dependent request (`weight` drawn from
sibling `a`, which exists in the local state) validates cleanly. -/
theorem c8_literal_dict_stages_witness :
    checkLiteralDict
      { wrapped := .meat, literalDict := [("weight", "a")],
        localState := [("a", .float 2)] }
      [("type", .str "pork")] false = .ok Option.none := by
  have h := c8_literal_dict_stages
    { wrapped := .meat, literalDict := [("weight", "a")],
      localState := [("a", .float 2)] }
    [("type", .str "pork")] false .pork [("weight", .float 2)] rfl rfl
  simpa using h

/-- C8 counterexample: the path `a.b` with sibling `a` bound to the
integer `5` has no `b` in its (non-container) intermediate value, so the
walk raises `TypeError` instead of returning the
`MissingDependencyError` the claim predicts for an unresolvable path. -/
theorem c8_literal_dict_counterexample :
    checkLiteralDict
      { wrapped := .meat, literalDict := [("weight", "a.b")],
        localState := [("a", .int 5)] }
      [("type", .str "pork")] false = .raised .pyTypeError ∧
    checkLiteralDict
      { wrapped := .meat, literalDict := [("weight", "a.b")],
        localState := [("a", .int 5)] }
      [("type", .str "pork")] false
      ≠ .ok (some (.missingDependency
          { wrapped := .meat, literalDict := [("weight", "a.b")],
            localState := [("a", .int 5)] }
          [("weight", "a.b")])) := by
  constructor
  · rfl
  · intro h
    rw [show checkLiteralDict
        { wrapped := .meat, literalDict := [("weight", "a.b")],
          localState := [("a", .int 5)] }
        [("type", .str "pork")] false = Out.raised .pyTypeError from rfl] at h
    cases h

/-- C5 (amended): `Base.a_get` collects every `Alter` whose `a_contains`
holds for the original pair, and `Base.alter_obj` applies each collected
alter in priority order, each to the result of the previous application.
Only when at most one alter claims the pair does the first claimant's
substitution alone determine the result; with two claimants the second
is applied to the substituted value. -/
theorem c5_alter_pipeline_amended (alters : List AlterM) (t : Ty) (v : Val) :
    (aGet alters t v = [] → alterObjBase alters t v = v) ∧
    (∀ a, aGet alters t v = [a] → alterObjBase alters t v = a.alterObj t v) ∧
    (∀ a b, aGet alters t v = [a, b] →
      alterObjBase alters t v = b.alterObj t (a.alterObj t v)) := by
  refine ⟨?_, ?_, ?_⟩
  · intro h
    rw [alterObjBase, h]
    rfl
  · intro a h
    rw [alterObjBase, h]
    rfl
  · intro a b h
    rw [alterObjBase, h]
    rfl

/-- C5 witness: a single-claimant pipeline applies exactly that alter. -/
theorem c5_alter_pipeline_amended_witness :
    alterObjBase [alterInc] .int (.int 0) = alterInc.alterObj .int (.int 0) :=
  (c5_alter_pipeline_amended [alterInc] .int (.int 0)).2.1 alterInc rfl

/-- C5 counterexample: two alters both claim the pair `(int, 0)`; the
pipeline applies the second alter to the first alter's substituted value
(yielding `(0 + 1) * 10 = 10`), so the first claimant's substitution
alone (`1`) is not the pipeline's result, contradicting the claim that
only the first claiming alter is applied. -/
theorem c5_alter_pipeline_counterexample :
    aGet [alterInc, alterTen] .int (.int 0) = [alterInc, alterTen] ∧
    alterObjBase [alterInc, alterTen] .int (.int 0) = .int 10 ∧
    alterInc.alterObj .int (.int 0) = .int 1 ∧
    alterObjBase [alterInc, alterTen] .int (.int 0)
      ≠ alterInc.alterObj .int (.int 0) := by
  refine ⟨rfl, rfl, rfl, ?_⟩
  intro h
  simp [alterObjBase, aGet, alterInc, alterTen, AlterM.alterObj] at h

/-- C6: the shared `Complex.general_check` sequence, for a registered
target: a construction call short-circuits a value that is already an
instance of the target; otherwise a non-`Params` value yields a
`ParamError`; otherwise a `Params` whose discriminator names no
constructible descendant yields a `ComplexTypeMismatchError` carrying
exactly the name-to-class map of all constructible descendants; in
particular `from_obj(Meat, Params({"type": "dne"}))` raises a
`ComplexTypeMismatchError` naming exactly beef and pork. -/
theorem c6_general_check_sequence (c : CName) (v : Val)
    (m : List (String × Val)) (s : String)
    (hreg : containsCls c = true) :
    (isinstancePy (.cls c) v = true → generalCheck true c v = .ok (.already v)) ∧
    (isinstancePy (.cls c) v = false → isParamsVal v = false →
      generalCheck true c v = .ok (.failed (.paramError (.cls c) v))) ∧
    (paramsGet m "type" = .str s → hasKeyA (childrenOf c) s = false →
      generalCheck true c (.params m)
        = .ok (.failed (.complexTypeMismatch (.cls c) (childrenOf c) (.params m)))) ∧
    fromObj 1 (.cls .meat) (.params [("type", .str "dne")])
      = .raised (.complexTypeMismatch (.cls .meat) [("beef", .beef), ("pork", .pork)]
          (.params [("type", .str "dne")])) := by
  refine ⟨?_, ?_, ?_, rfl⟩
  · intro hinst
    simp [generalCheck, hreg, hinst]
  · intro hinst hparams
    cases v <;> simp_all [generalCheck, isParamsVal]
  · intro htype hne
    have hinst : isinstancePy (.cls c) (.params m) = false := rfl
    simp [generalCheck, hreg, hinst, htype, hne]

/-- C6 witness: the three `general_check` branches exercised on `Meat`
(an already-constructed `Beef` instance, a non-`Params` value, and an
unknown discriminator). -/
theorem c6_general_check_sequence_witness :
    generalCheck true .meat (.inst .beef [("weight", .float 10), ("feed", .str "corn")])
      = .ok (.already (.inst .beef [("weight", .float 10), ("feed", .str "corn")])) ∧
    generalCheck true .meat (.int 3)
      = .ok (.failed (.paramError (.cls .meat) (.int 3))) ∧
    generalCheck true .meat (.params [("type", .str "dne")])
      = .ok (.failed (.complexTypeMismatch (.cls .meat) (childrenOf .meat)
          (.params [("type", .str "dne")]))) := by
  have h1 := c6_general_check_sequence .meat
    (.inst .beef [("weight", .float 10), ("feed", .str "corn")]) [] "x" rfl
  have h2 := c6_general_check_sequence .meat (.int 3)
    [("type", .str "dne")] "dne" rfl
  exact ⟨h1.1 rfl, h2.2.1 rfl rfl, h2.2.2.1 rfl rfl⟩

/-- C3: checking a list value against a parameterized list type runs the
element check on every element (hypothesis `hmem` records all the
element outcomes) and, when any element fails, returns a single
`KeyValueError` whose keys are exactly the zero-based indices of the
failing elements. -/
theorem c3_list_aggregate (fuel : Nat) (te : Ty) (xs : List Val)
    (rs : List (Option Err))
    (hcon : containsTy te = true)
    (hmem : outMapM (typeCheck fuel te) xs = .ok rs) :
    typeCheck (fuel + 1) (.list te) (.list xs)
      = .ok (if (enumFails rs).isEmpty then Option.none
             else some (.keyValue (.list te)
               ((enumFails rs).map (fun p => (EKey.idx p.1, p.2))) (.list xs))) ∧
    (typeCheck (fuel + 1) (.list te) (.list xs) = .ok Option.none ↔
      ∀ r ∈ rs, r = Option.none) ∧
    (∀ k : Nat, k ∈ (enumFails rs).map Prod.fst ↔ ∃ e, rs.get? k = some (some e)) := by
  have heq : typeCheck (fuel + 1) (.list te) (.list xs)
      = .ok (if (enumFails rs).isEmpty then Option.none
             else some (.keyValue (.list te)
               ((enumFails rs).map (fun p => (EKey.idx p.1, p.2))) (.list xs))) := by
    rw [tc_list_eq]
    simp only [hcon, not_true_eq_false, if_false]
    show ((outMapM (typeCheck fuel te) xs).map _) = _
    rw [hmem]
    rfl
  refine ⟨heq, ?_, ?_⟩
  · rw [heq]
    by_cases hfail : (enumFails rs).isEmpty
    · simp only [hfail, if_true]
      have hnil : enumFails rs = [] := by
        simpa [List.isEmpty_iff] using hfail
      rw [enumFails] at hnil
      simp only [Out.ok.injEq, true_iff]
      exact (enumFailsFrom_eq_nil 0).mp hnil
    · simp only [hfail, if_false]
      constructor
      · intro h; cases h
      · intro hall
        exact absurd (by simpa [List.isEmpty_iff, enumFails]
          using (enumFailsFrom_eq_nil 0).mpr hall) hfail
  · intro k
    rw [enumFails, mem_enumFailsFrom_keys]
    constructor
    · rintro ⟨j, e, hj, rfl⟩; exact ⟨e, by simpa using hj⟩
    · rintro ⟨e, he⟩; exact ⟨k, e, he, by omega⟩

/-- C3 witness: `[1, "x", 3, "y"]` against `List[int]` yields a
`KeyValueError` with exactly keys 1 and 3. -/
theorem c3_list_aggregate_witness :
    typeCheck 2 (.list .int) (.list [.int 1, .str "x", .int 3, .str "y"])
      = .ok (some (.keyValue (.list .int)
          [(.idx 1, .wrongType .int (.str "x")), (.idx 3, .wrongType .int (.str "y"))]
          (.list [.int 1, .str "x", .int 3, .str "y"]))) := by
  have h := (c3_list_aggregate 1 .int
      [.int 1, .str "x", .int 3, .str "y"]
      [Option.none, some (.wrongType .int (.str "x")),
        Option.none, some (.wrongType .int (.str "y"))]
      rfl rfl).1
  exact h

/-! ### Safety of the validation path

The toolkit for the no-raise theorem on `type_check`: discriminator
safety (`TcSafe`) is preserved by the `Params` read wrapping and by the
container accessors, every fixture parameter annotation is representable,
and the per-parameter loop of `ConstructorValue` only looks up keys the
consistency check has already matched against the constructor. -/

/-- A normal return is not a raise. -/
theorem Out.ok_notRaised (a : α) : (Out.ok a).notRaised :=
  fun _ h => nomatch h

/-- A successful association lookup exposes a member. -/
theorem lookupA_mem {l : List (String × α)} {k : String} {a : α}
    (h : lookupA l k = some a) : (k, a) ∈ l := by
  induction l with
  | nil => exact nomatch h
  | cons kv rest ih =>
    rw [show lookupA (kv :: rest) k
        = if kv.1 = k then some kv.2 else lookupA rest k from rfl] at h
    by_cases hk : kv.1 = k
    · rw [if_pos hk] at h
      injection h with h2
      subst hk
      subst h2
      exact List.mem_cons_self _ _
    · rw [if_neg hk] at h
      exact List.mem_cons_of_mem _ (ih h)

/-- A present key has a bound value. -/
theorem hasKeyA_exists {m : List (String × α)} {k : String}
    (h : hasKeyA m k = true) : ∃ a, lookupA m k = some a := by
  unfold hasKeyA at h
  exact Option.isSome_iff_exists.mp h

/-- Every inferred parameter annotation of the fixture constructors is
representable by a unit (checked over the whole fixture table). -/
theorem annos_contained (c : CName) {k : String} {sp : SigParam}
    (h : lookupA (parametersOf c) k = some sp) : containsTy sp.anno = true := by
  have hall : (parametersOf c).all (fun kv => containsTy kv.2.anno) = true := by
    cases c <;> decide
  exact List.all_eq_true.mp hall _ (lookupA_mem h)

/-- `general_check` without the `let` bindings (definitional). -/
theorem generalCheck_eq (io : Bool) (c : CName) (v : Val) :
    generalCheck io c v =
      (if ¬ containsCls c then .ok (.failed (.unRepresented (.cls c) v))
      else if io && isinstancePy (.cls c) v then .ok (.already v)
      else
        match v with
        | .params m =>
          match paramsGet m "type" with
          | .str s =>
            if hasKeyA (childrenOf c) s then .ok .pass
            else .ok (.failed (.complexTypeMismatch (.cls c) (childrenOf c) v))
          | _ =>
            if runtimeHashable (paramsGet m "type") then
              .ok (.failed (.complexTypeMismatch (.cls c) (childrenOf c) v))
            else .raised .pyTypeError
        | _ => .ok (.failed (.paramError (.cls c) v))) := rfl

/-- A passing `general_check` means: the value is a `Params` whose string
discriminator names a constructible descendant. -/
theorem generalCheck_ok_pass {io : Bool} {c : CName} {v : Val}
    (h : generalCheck io c v = .ok .pass) :
    ∃ m s, v = .params m ∧ paramsGet m "type" = Val.str s ∧
      hasKeyA (childrenOf c) s = true := by
  rw [generalCheck_eq] at h
  split at h
  · exact nomatch h
  · split at h
    · exact nomatch h
    · split at h
      · split at h
        · rename_i s heq
          split at h
          · rename_i hkey
            exact ⟨_, s, rfl, heq, hkey⟩
          · exact nomatch h
        · split at h <;> exact nomatch h
      · exact nomatch h

/-- A passing discriminator resolves to a constructible descendant. -/
theorem resolveRu_of_pass {c : CName} {m : List (String × Val)} {s : String}
    (hts : paramsGet m "type" = Val.str s)
    (hkey : hasKeyA (childrenOf c) s = true) :
    ∃ ru, resolveRu c m = some ru := by
  unfold resolveRu
  rw [hts]
  exact hasKeyA_exists hkey

/-- `parameter_consistency` without the `let` bindings (definitional). -/
theorem parameterConsistency_eq (c : CName) (m : List (String × Val)) :
    parameterConsistency c m =
      (if ((parametersOf c).filterMap (fun kp =>
            if kp.1 = "self" ∨ kp.2.default.isSome then Option.none
            else if hasKeyA m kp.1 then Option.none
            else some (kp.1, kp.2.anno))).isEmpty ∧
          (m.filterMap (fun kv =>
            if kv.1 = "type" then Option.none
            else if hasKeyA (parametersOf c) kv.1 then Option.none
            else some (kv.1, pyTypeName (wrapRead kv.2)))).isEmpty
      then Option.none
      else some (.keyValueDiff c
        ((parametersOf c).filterMap (fun kp =>
            if kp.1 = "self" ∨ kp.2.default.isSome then Option.none
            else if hasKeyA m kp.1 then Option.none
            else some (kp.1, kp.2.anno)))
        (m.filterMap (fun kv =>
            if kv.1 = "type" then Option.none
            else if hasKeyA (parametersOf c) kv.1 then Option.none
            else some (kv.1, pyTypeName (wrapRead kv.2))))
        (.params m))) := rfl

/-- When `parameter_consistency` reports nothing, every non-`type` key of
the value is an inferred parameter of the constructor. -/
theorem parameterConsistency_none_keys {c : CName} {m : List (String × Val)}
    (h : parameterConsistency c m = Option.none) :
    ∀ kv ∈ m, kv.1 ≠ "type" → hasKeyA (parametersOf c) kv.1 = true := by
  rw [parameterConsistency_eq] at h
  split at h
  · rename_i hcond
    intro kv hkv hne
    by_cases hkey : hasKeyA (parametersOf c) kv.1 = true
    · exact hkey
    · exfalso
      have hmem : (kv.1, pyTypeName (wrapRead kv.2)) ∈ m.filterMap (fun kv =>
          if kv.1 = "type" then Option.none
          else if hasKeyA (parametersOf c) kv.1 then Option.none
          else some (kv.1, pyTypeName (wrapRead kv.2))) := by
        rw [List.mem_filterMap]
        exact ⟨kv, hkv, by rw [if_neg hne, if_neg hkey]⟩
      have hnil := hcond.2
      rw [List.isEmpty_iff] at hnil
      rw [hnil] at hmem
      exact nomatch hmem
  · exact nomatch h

/-- Unfolding of the per-parameter check loop at a cons key list. -/
theorem ctcLoop_cons (p : Ty → Val → Out (Option Err)) (c : CName)
    (m : List (String × Val)) (k : String) (ks : List String) :
    ctcLoop p c m (k :: ks) =
      (if hasKeyA m k ∧ k ≠ "type" then
        match lookupA (parametersOf c) k with
        | Option.none => .raised .pyKeyError
        | some sp =>
          (p sp.anno (paramsGet m k)).bind (fun r =>
            (ctcLoop p c m ks).map (fun rest =>
              match r with
              | Option.none => rest
              | some e => (k, e) :: rest))
      else ctcLoop p c m ks) := rfl

/-- Invert a successful bind. -/
theorem Out.bind_eq_ok {o : Out α} {f : α → Out β} {b : β}
    (h : o.bind f = .ok b) : ∃ a, o = .ok a ∧ f a = .ok b := by
  cases o with
  | ok a => exact ⟨a, rfl, h⟩
  | raised e => exact nomatch h
  | div => exact nomatch h

/-- Every result of a successful effectful map comes from some input. -/
theorem outMapM_ok_mem_rev {f : α → Out β} {xs : List α} {rs : List β}
    (h : outMapM f xs = .ok rs) : ∀ r ∈ rs, ∃ x ∈ xs, f x = .ok r := by
  induction xs generalizing rs with
  | nil =>
    cases h
    intro r hr
    exact nomatch hr
  | cons y ys ih =>
    obtain ⟨b, bs, hb, hbs, hcons⟩ := outMapM_ok_cons h
    subst hcons
    intro r hr
    cases hr with
    | head => exact ⟨y, List.mem_cons_self _ _, hb⟩
    | tail _ h2 =>
      obtain ⟨x, hx, hfx⟩ := ih hbs r h2
      exact ⟨x, List.mem_cons_of_mem _ hx, hfx⟩

/-- `int(obj)` returns an int when it returns. -/
theorem pyIntCtor_ok {x w : Val} (h : pyIntCtor x = .ok w) : ∃ n, w = .int n := by
  cases x
  case int n => cases h; exact ⟨n, rfl⟩
  case bool b => cases h; exact ⟨_, rfl⟩
  case float n => cases h; exact ⟨n, rfl⟩
  case str s =>
    rw [show pyIntCtor (.str s) = (match pyParseIntStr s with
        | some n => Out.ok (.int n)
        | Option.none => .raised .pyValueError) from rfl] at h
    split at h
    · rename_i n hn
      cases h
      exact ⟨n, rfl⟩
    · exact nomatch h
  all_goals exact nomatch h

/-- `float(obj)` returns a float when it returns. -/
theorem pyFloatCtor_ok {x w : Val} (h : pyFloatCtor x = .ok w) :
    ∃ n, w = .float n := by
  cases x
  case int n => cases h; exact ⟨n, rfl⟩
  case bool b => cases h; exact ⟨_, rfl⟩
  case float n => cases h; exact ⟨n, rfl⟩
  case str s =>
    rw [show pyFloatCtor (.str s) = (match pyParseIntStr s with
        | some n => Out.ok (.float n)
        | Option.none => .raised .pyValueError) from rfl] at h
    split at h
    · rename_i n hn
      cases h
      exact ⟨n, rfl⟩
    · exact nomatch h
  all_goals exact nomatch h

/-- A primitive handler that declares `hashable = True` constructs only
runtime-hashable values. -/
theorem fromObj_declaredHashable {te : Ty} (hd : declaredHashable te = true) :
    ∀ (fuel : Nat) (x w : Val), fromObj fuel te x = .ok w →
      runtimeHashable w = true := by
  intro fuel x w h
  cases fuel with
  | zero => exact nomatch h
  | succ f =>
    cases te
    case int =>
      rw [fo_int_eq] at h
      obtain ⟨n, hn⟩ := pyIntCtor_ok h
      rw [hn]; rfl
    case str =>
      rw [fo_str_eq] at h
      cases h; rfl
    case bool =>
      rw [fo_bool_eq] at h
      cases h; rfl
    case float =>
      rw [fo_float_eq] at h
      obtain ⟨n, hn⟩ := pyFloatCtor_ok h
      rw [hn]; rfl
    all_goals exact nomatch hd

/-- Invert a passing `Wrapper.is_hashable` gate. -/
theorem isHashableCheck_none {target targetArg : Ty} {v : Val}
    (h : isHashableCheck target targetArg v = Option.none) :
    containsTy targetArg = true ∧ declaredHashable targetArg = true := by
  unfold isHashableCheck at h
  split at h
  · exact nomatch h
  · rename_i h1
    split at h
    · exact nomatch h
    · rename_i h2
      exact ⟨not_not.mp h1, not_not.mp h2⟩

/-- A key of the mapping has a binding. -/
theorem hasKeyA_of_mem_fst {m : List (String × α)} {k : String}
    (h : k ∈ m.map (fun kv => kv.1)) : hasKeyA m k = true := by
  induction m with
  | nil => exact nomatch h
  | cons kv rest ih =>
    rw [List.map_cons] at h
    cases h with
    | head =>
      show (lookupA (kv :: rest) kv.1).isSome = true
      rw [show lookupA (kv :: rest) kv.1
          = if kv.1 = kv.1 then some kv.2 else lookupA rest kv.1 from rfl,
        if_pos rfl]
      rfl
    | tail _ h2 =>
      show (lookupA (kv :: rest) k).isSome = true
      rw [show lookupA (kv :: rest) k
          = if kv.1 = k then some kv.2 else lookupA rest k from rfl]
      by_cases hk : kv.1 = k
      · rw [if_pos hk]; rfl
      · rw [if_neg hk]; exact ih h2

/-- A bound key is among the mapping's keys. -/
theorem mem_fst_of_hasKeyA {m : List (String × α)} {k : String}
    (h : hasKeyA m k = true) : k ∈ m.map (fun kv => kv.1) := by
  obtain ⟨a, ha⟩ := hasKeyA_exists h
  exact List.mem_map.mpr ⟨(k, a), lookupA_mem ha, rfl⟩

/-- Popping another key does not change membership. -/
theorem hasKeyA_eraseA_ne {m : List (String × α)} {k k2 : String} (h : k2 ≠ k) :
    hasKeyA (eraseA m k) k2 = hasKeyA m k2 := by
  unfold hasKeyA
  rw [lookupA_eraseA_ne m k k2 h]

/-- The popped key is gone. -/
theorem hasKeyA_eraseA_self (m : List (String × α)) (k : String) :
    hasKeyA (eraseA m k) k = false := by
  unfold hasKeyA
  rw [lookupA_eraseA_self]
  rfl

/-- Reading another key is unchanged after the `type` pop. -/
theorem paramsGet_eraseA_ne (m : List (String × Val)) {k : String}
    (h : k ≠ "type") : paramsGet (eraseA m "type") k = paramsGet m k := by
  unfold paramsGet
  rw [lookupA_eraseA_ne m "type" k h]

/-- No fixture constructor declares a parameter named `self` or `type`
(checked over the whole fixture table). -/
theorem params_no_self_type (c : CName) :
    (parametersOf c).all (fun kp => kp.1 != "self" && kp.1 != "type") = true := by
  cases c <;> decide

/-- A representable type target is never a `Dependent` wrapper: no unit
claims the bare wrapper as a type. -/
theorem isDep_false_of_contains {t : Ty} (h : containsTy t = true) :
    t.isDep = false := by
  cases t <;> first | rfl | exact nomatch h

/-- The `ParameterValue.get` dispatch resolves every non-`Dependent`
annotation to the `Identity` handler (the machine's `ptc`), for any
local state. -/
theorem pvTypeCheck_eq_identity (fuel : Nat) (t : Ty)
    (ls : List (String × Val)) (v : Val) (h : t.isDep = false) :
    pvTypeCheck fuel t ls v = paramTypeCheck fuel t v := by
  cases fuel with
  | zero => rfl
  | succ f =>
    cases t
    case dep w ld => exact nomatch h
    all_goals rfl

/-- Every constructor parameter annotation of the fixture dispatches to
the `Identity` handler: none is a `Dependent` wrapper (each is even
representable as a type, `annos_contained`).  This is the resolution the
machine's per-parameter loops use. -/
theorem fixture_dispatch_identity (fuel : Nat) {c : CName} {k : String}
    {sp : SigParam} (h : lookupA (parametersOf c) k = some sp)
    (ls : List (String × Val)) (v : Val) :
    pvTypeCheck fuel sp.anno ls v = paramTypeCheck fuel sp.anno v :=
  pvTypeCheck_eq_identity fuel sp.anno ls v
    (isDep_false_of_contains (annos_contained c h))

/-- When `parameter_consistency` reports nothing, every required
parameter (no default, not `self`) is present in the value. -/
theorem parameterConsistency_none_required {c : CName} {m : List (String × Val)}
    (h : parameterConsistency c m = Option.none) :
    ∀ kp ∈ parametersOf c, kp.1 ≠ "self" → kp.2.default = Option.none →
      hasKeyA m kp.1 = true := by
  rw [parameterConsistency_eq] at h
  split at h
  · rename_i hcond
    intro kp hkp hself hdef
    by_cases hkey : hasKeyA m kp.1 = true
    · exact hkey
    · exfalso
      have hne : ¬ (kp.1 = "self" ∨ kp.2.default.isSome = true) := by
        rintro (hs | hd)
        · exact hself hs
        · rw [hdef] at hd; exact nomatch hd
      have hmem : (kp.1, kp.2.anno) ∈ (parametersOf c).filterMap (fun kp =>
          if kp.1 = "self" ∨ kp.2.default.isSome then Option.none
          else if hasKeyA m kp.1 then Option.none
          else some (kp.1, kp.2.anno)) := by
        rw [List.mem_filterMap]
        exact ⟨kp, hkp, by rw [if_neg hne, if_neg hkey]⟩
      have hnil := hcond.1
      rw [List.isEmpty_iff] at hnil
      rw [hnil] at hmem
      exact nomatch hmem
  · exact nomatch h

/-- `check_parameter_order` without the `let` bindings (definitional). -/
theorem checkParameterOrder_eq (c : CName) :
    checkParameterOrder c =
      (match parameterOrderOf c with
      | Option.none => Option.none
      | some po =>
        if (((parametersOf c).map (fun kv => kv.1)).filter
              (fun k => ¬ po.contains k)).isEmpty ∧
            (po.filter (fun k =>
              ¬ ((parametersOf c).map (fun kv => kv.1)).contains k)).isEmpty
        then Option.none
        else some (.parameterOrder c
          (((parametersOf c).map (fun kv => kv.1)).filter
            (fun k => ¬ po.contains k))
          (po.filter (fun k =>
            ¬ ((parametersOf c).map (fun kv => kv.1)).contains k)))) := rfl

/-- When a declared `parameter_order` passes the order check, it covers
every inferred parameter name. -/
theorem checkParameterOrder_none_sub {c : CName} {po : List String}
    (h : checkParameterOrder c = Option.none)
    (hpo : parameterOrderOf c = some po) :
    ∀ k ∈ (parametersOf c).map (fun kv => kv.1), po.contains k = true := by
  rw [checkParameterOrder_eq, hpo] at h
  split at h
  · rename_i heq
    exact nomatch heq
  · rename_i po2 heq
    cases heq
    split at h
    · rename_i hcond
      intro k hk
      by_cases hc : po.contains k = true
      · exact hc
      · exfalso
        have hmem : k ∈ ((parametersOf c).map (fun kv => kv.1)).filter
            (fun k => ¬ po.contains k) := by
          rw [List.mem_filter]
          exact ⟨hk, decide_eq_true hc⟩
        have hnil := hcond.1
        rw [List.isEmpty_iff] at hnil
        rw [hnil] at hmem
        exact nomatch hmem
    · exact nomatch h

/-- `general_check` with `from_obj = False` never short-circuits on an
instance. -/
theorem generalCheck_false_no_already {c : CName} {v w : Val} :
    generalCheck false c v ≠ .ok (.already w) := by
  intro h
  rw [generalCheck_eq] at h
  split at h
  · exact nomatch h
  · split at h
    · rename_i hcond
      exact nomatch hcond
    · split at h
      · split at h
        · split at h <;> exact nomatch h
        · split at h <;> exact nomatch h
      · exact nomatch h

/-- If the validation-side `general_check` passes, the construction-side
one either short-circuits on an instance or passes identically. -/
theorem generalCheck_true_of_pass {c : CName} {v : Val}
    (h : generalCheck false c v = .ok .pass) :
    generalCheck true c v = .ok (.already v) ∨
      generalCheck true c v = .ok .pass := by
  rw [generalCheck_eq] at h
  rw [generalCheck_eq]
  split at h
  · exact nomatch h
  · rename_i hcont
    split at h
    · exact nomatch h
    · rw [if_neg hcont]
      by_cases hinst : (true && isinstancePy (.cls c) v) = true
      · rw [if_pos hinst]; exact Or.inl rfl
      · rw [if_neg hinst]; exact Or.inr h

/-- Invert a per-parameter check loop that reported no failure: every
processed key resolved to a parameter whose check returned `None`. -/
theorem ctcLoop_ok_nil {p : Ty → Val → Out (Option Err)} {c : CName}
    {m : List (String × Val)} :
    ∀ {keys : List String}, ctcLoop p c m keys = .ok [] →
    ∀ k ∈ keys, hasKeyA m k = true → k ≠ "type" →
      ∃ sp, lookupA (parametersOf c) k = some sp ∧
        p sp.anno (paramsGet m k) = .ok Option.none := by
  intro keys
  induction keys with
  | nil =>
    intro _ k hk
    exact nomatch hk
  | cons k0 ks ih =>
    intro h k hk hkm hkt
    rw [ctcLoop_cons] at h
    by_cases hc : hasKeyA m k0 = true ∧ k0 ≠ "type"
    · rw [if_pos hc] at h
      cases hlk : lookupA (parametersOf c) k0 with
      | none => rw [hlk] at h; exact nomatch h
      | some sp =>
        rw [hlk] at h
        obtain ⟨r, hr, hrest⟩ := Out.bind_eq_ok h
        obtain ⟨rest, hrest2, hrfl⟩ := Out.map_eq_ok hrest
        cases r with
        | some e => exact nomatch hrfl
        | none =>
          have he : rest = [] := hrfl
          rw [he] at hrest2
          cases hk with
          | head => exact ⟨sp, hlk, hr⟩
          | tail _ h2 => exact ih hrest2 k h2 hkm hkt
    · rw [if_neg hc] at h
      cases hk with
      | head => exact absurd ⟨hkm, hkt⟩ hc
      | tail _ h2 => exact ih h k h2 hkm hkt

/-- Unfolding of the construction loop at a cons key list. -/
theorem cfoLoop_cons (pfo1 : Ty → Val → Out Val) (c : CName)
    (m1 : List (String × Val)) (k : String) (ks : List String)
    (kwargs : List (String × Val)) :
    cfoLoop pfo1 c m1 (k :: ks) kwargs =
      (if hasKeyA m1 k then
        match lookupA (parametersOf c) k with
        | Option.none => .raised .pyKeyError
        | some sp =>
          (pfo1 sp.anno (paramsGet m1 k)).bind (fun w =>
            cfoLoop pfo1 c m1 ks (kwargs ++ [(k, w)]))
      else cfoLoop pfo1 c m1 ks kwargs) := rfl

/-- The construction loop never raises when every present key resolves
to a parameter and the per-parameter constructions do not raise. -/
theorem cfoLoop_notRaised {pfo1 : Ty → Val → Out Val} {c : CName}
    {m1 : List (String × Val)}
    (hlk : ∀ k, hasKeyA m1 k = true → hasKeyA (parametersOf c) k = true)
    (hpf : ∀ k sp, hasKeyA m1 k = true →
      lookupA (parametersOf c) k = some sp →
      (pfo1 sp.anno (paramsGet m1 k)).notRaised) :
    ∀ (keys : List String) (kwargs0 : List (String × Val)),
      (cfoLoop pfo1 c m1 keys kwargs0).notRaised := by
  intro keys
  induction keys with
  | nil => intro kwargs0; exact Out.ok_notRaised _
  | cons k ks ih =>
    intro kwargs0
    rw [cfoLoop_cons]
    by_cases hc : hasKeyA m1 k = true
    · rw [if_pos hc]
      obtain ⟨sp, hsp⟩ := hasKeyA_exists (hlk k hc)
      rw [hsp]
      exact Out.bind_notRaised (hpf k sp hc hsp) (fun w _ => ih _)
    · rw [if_neg hc]
      exact ih _

/-- The keys accumulated by a successful construction loop are exactly
the processed keys present in the mapping. -/
theorem cfoLoop_ok_keys {pfo1 : Ty → Val → Out Val} {c : CName}
    {m1 : List (String × Val)} :
    ∀ {keys : List String} {kwargs0 kwargs : List (String × Val)},
      cfoLoop pfo1 c m1 keys kwargs0 = .ok kwargs →
      kwargs.map (fun kv => kv.1)
        = kwargs0.map (fun kv => kv.1)
          ++ keys.filter (fun k => hasKeyA m1 k) := by
  intro keys
  induction keys with
  | nil =>
    intro kwargs0 kwargs h
    cases h
    simp
  | cons k ks ih =>
    intro kwargs0 kwargs h
    rw [cfoLoop_cons] at h
    by_cases hc : hasKeyA m1 k = true
    · rw [if_pos hc] at h
      cases hlk : lookupA (parametersOf c) k with
      | none => rw [hlk] at h; exact nomatch h
      | some sp =>
        rw [hlk] at h
        obtain ⟨w, hw, hrec⟩ := Out.bind_eq_ok h
        rw [ih hrec, List.filter_cons_of_pos hc, List.map_append]
        simp
    · rw [if_neg hc] at h
      rw [ih h, List.filter_cons_of_neg (by simp [hc])]

/-- `pyConstruct` without the `let` binding (definitional). -/
theorem pyConstruct_eq (c : CName) (kwargs : List (String × Val)) :
    pyConstruct c kwargs =
      (if ¬ ((parametersOf c).filter (fun kp =>
          kp.2.default.isNone ∧ ¬ hasKeyA kwargs kp.1)).isEmpty then
        .raised .pyTypeError
      else if ¬ (kwargs.filter
          (fun kv => ¬ hasKeyA (parametersOf c) kv.1)).isEmpty then
        .raised .pyTypeError
      else
        .ok (.inst c ((parametersOf c).map (fun kp =>
          (kp.1, (lookupA kwargs kp.1).getD (kp.2.default.getD .none)))))) := rfl

/-- Calling the constructor succeeds when every required parameter has a
keyword argument and every keyword argument is a declared parameter. -/
theorem pyConstruct_notRaised {c : CName} {kwargs : List (String × Val)}
    (h1 : ∀ kp ∈ parametersOf c, kp.2.default = Option.none →
      hasKeyA kwargs kp.1 = true)
    (h2 : ∀ kv ∈ kwargs, hasKeyA (parametersOf c) kv.1 = true) :
    (pyConstruct c kwargs).notRaised := by
  rw [pyConstruct_eq]
  have hf1 : ((parametersOf c).filter (fun kp =>
      kp.2.default.isNone ∧ ¬ hasKeyA kwargs kp.1)).isEmpty = true := by
    rw [List.isEmpty_iff, List.filter_eq_nil_iff]
    intro kp hkp hcontra
    rw [decide_eq_true_eq] at hcontra
    obtain ⟨hd, hk⟩ := hcontra
    refine hk (h1 kp hkp ?_)
    cases hdv : kp.2.default with
    | none => rfl
    | some a => rw [hdv] at hd; exact nomatch hd
  have hf2 : (kwargs.filter
      (fun kv => ¬ hasKeyA (parametersOf c) kv.1)).isEmpty = true := by
    rw [List.isEmpty_iff, List.filter_eq_nil_iff]
    intro kv hkv hcontra
    rw [decide_eq_true_eq] at hcontra
    exact hcontra (h2 kv hkv)
  rw [if_neg (not_not_intro hf1), if_neg (not_not_intro hf2)]
  exact Out.ok_notRaised _

/-- The `Identity` shortcut is safe: an origin-free representable target
with an `isinstance` match constructs without raising. -/
theorem fo_shortcut_notRaised {t : Ty} {v : Val} (fuel : Nat)
    (hcon : containsTy t = true)
    (ho : ¬ hasOrigin t = true) (hin : isinstancePy t v = true) :
    (fromObj fuel t v).notRaised := by
  cases fuel with
  | zero => exact fun e he => nomatch he
  | succ f =>
    cases t
    case int =>
      rw [fo_int_eq]
      cases v
      case int n => exact Out.ok_notRaised _
      case bool b => exact Out.ok_notRaised _
      all_goals exact nomatch hin
    case str => rw [fo_str_eq]; exact Out.ok_notRaised _
    case bool => rw [fo_bool_eq]; exact Out.ok_notRaised _
    case float =>
      rw [fo_float_eq]
      cases v
      case float n => exact Out.ok_notRaised _
      all_goals exact nomatch hin
    case cls c =>
      rw [fo_cls_eq,
        if_neg (not_not_intro (show containsCls c = true from hcon))]
      have hgc : generalCheck true c v = .ok (.already v) := by
        rw [generalCheck_eq,
          if_neg (not_not_intro (show containsCls c = true from hcon)),
          if_pos (by simp [hin])]
      rw [hgc]
      exact Out.ok_notRaised _
    case foreign s => exact nomatch hcon
    case dep w ld => exact nomatch hcon
    case list te => exact absurd rfl ho
    case set te => exact absurd rfl ho
    case tuple ts => exact absurd rfl ho
    case union ts => exact absurd rfl ho
    case dict tk tv => exact absurd rfl ho

/-- The master induction for validate/construct agreement: at every
fuel, whenever `type_check` returns `None` the corresponding `from_obj`
run does not raise, simultaneously for the type-, constructor- and
parameter-target entry points. -/
theorem okNoneConstructs : ∀ fuel : Nat,
    (∀ t v, typeCheck fuel t v = .ok Option.none →
      (fromObj fuel t v).notRaised) ∧
    (∀ c m, ctorTypeCheck fuel c m = .ok Option.none →
      (ctorFromObj fuel c m).notRaised) ∧
    (∀ t v, paramTypeCheck fuel t v = .ok Option.none →
      (paramFromObj fuel t v).notRaised) := by
  intro fuel
  induction fuel with
  | zero =>
    exact ⟨fun t v h => (nomatch h), fun c m h => (nomatch h),
      fun t v h => nomatch h⟩
  | succ fuel ih =>
    obtain ⟨ihtc, ihctc, ihptc⟩ := ih
    refine ⟨?_, ?_, ?_⟩
    · intro t v h
      cases t with
      | int =>
        rw [tc_int_eq] at h
        injection h with h2
        rw [fo_int_eq]
        cases v
        case int n => exact Out.ok_notRaised _
        case bool b => exact Out.ok_notRaised _
        case float n => exact Out.ok_notRaised _
        all_goals exact nomatch h2
      | str => rw [fo_str_eq]; exact Out.ok_notRaised _
      | bool => rw [fo_bool_eq]; exact Out.ok_notRaised _
      | float =>
        rw [tc_float_eq] at h
        injection h with h2
        rw [fo_float_eq]
        cases v
        case float n => exact Out.ok_notRaised _
        all_goals exact nomatch h2
      | foreign s => exact nomatch h
      | dep w ld => exact nomatch h
      | list te =>
        rw [tc_list_eq] at h
        split at h
        · exact nomatch h
        · rename_i hcont
          split at h
          · exact nomatch h
          · rename_i xs hiter
            split at h
            · exact nomatch h
            · rename_i hset
              obtain ⟨rs, hrs, hagg⟩ := Out.map_eq_ok h
              have hnone : ∀ r ∈ rs, r = Option.none := by
                by_cases hfail : (enumFails rs).isEmpty = true
                · exact fun r hr =>
                    (enumFailsFrom_eq_nil 0).mp (List.isEmpty_iff.mp hfail) r hr
                · exfalso
                  have h3 : (if (enumFails rs).isEmpty = true
                      then (Option.none : Option Err)
                      else some (.keyValue (.list te)
                        ((enumFails rs).map (fun p => (EKey.idx p.1, p.2))) v))
                      = Option.none := hagg
                  rw [if_neg hfail] at h3
                  exact nomatch h3
              rw [fo_list_eq, if_neg hcont]
              split
              · rename_i xs2 hiter2
                rw [hiter] at hiter2
                injection hiter2 with he
                subst he
                refine Out.map_notRaised _ (outMapM_notRaised ?_)
                intro x hx
                obtain ⟨r, hr, hfr⟩ := outMapM_ok_mem hrs x hx
                rw [hnone r hr] at hfr
                exact ihtc te x hfr
              · rename_i hiter2
                rw [hiter] at hiter2
                exact nomatch hiter2
      | set te =>
        rw [tc_set_eq] at h
        split at h
        · exact nomatch h
        · rename_i hcont
          split at h
          · exact nomatch h
          · rename_i xs hiter
            split at h
            · exact nomatch h
            · rename_i hh
              obtain ⟨rs, hrs, hagg⟩ := Out.map_eq_ok h
              have hnone : ∀ r ∈ rs, r = Option.none := by
                by_cases hfail : ((rs.filterMap id).enum).isEmpty = true
                · have h1 : rs.filterMap id = [] := by
                    cases hfm : rs.filterMap id with
                    | nil => rfl
                    | cons a l =>
                      rw [hfm] at hfail
                      have h0 := List.isEmpty_iff.mp hfail
                      exact nomatch h0
                  intro r hr
                  cases hrv : r with
                  | none => rfl
                  | some e =>
                    exfalso
                    have hmem : e ∈ rs.filterMap id :=
                      List.mem_filterMap.mpr ⟨r, hr, by rw [hrv]; rfl⟩
                    rw [h1] at hmem
                    exact nomatch hmem
                · exfalso
                  have h3 : (if ((rs.filterMap id).enum).isEmpty = true
                      then (Option.none : Option Err)
                      else some (.keyValue (.set te)
                        (((rs.filterMap id).enum).map
                          (fun p => (EKey.idx p.1, p.2))) v))
                      = Option.none := hagg
                  rw [if_neg hfail] at h3
                  exact nomatch h3
              rw [fo_set_eq, if_neg hcont]
              split
              · rename_i xs2 hiter2
                rw [hiter] at hiter2
                injection hiter2 with he
                subst he
                refine Out.bind_notRaised (outMapM_notRaised ?_) ?_
                · intro x hx
                  obtain ⟨r, hr, hfr⟩ := outMapM_ok_mem hrs x hx
                  rw [hnone r hr] at hfr
                  exact ihtc te x hfr
                · intro ws hws
                  have hall : ws.all runtimeHashable = true := by
                    rw [List.all_eq_true]
                    intro w hw
                    obtain ⟨x, hx, hfx⟩ := outMapM_ok_mem_rev hws w hw
                    exact fromObj_declaredHashable
                      (isHashableCheck_none hh).2 fuel x w hfx
                  rw [if_pos hall]
                  exact Out.ok_notRaised _
              · rename_i hiter2
                rw [hiter] at hiter2
                exact nomatch hiter2
      | tuple targs =>
        rw [tc_tuple_eq] at h
        split at h
        · exact nomatch h
        · rename_i hcont
          split at h
          · exact nomatch h
          · split at h
            · exact nomatch h
            · rename_i xs hiter
              split at h
              · exact nomatch h
              · obtain ⟨rs, hrs, hagg⟩ := Out.map_eq_ok h
                have hnone : ∀ r ∈ rs, r = Option.none := by
                  by_cases hfail : (enumFails rs).isEmpty = true
                  · exact fun r hr =>
                      (enumFailsFrom_eq_nil 0).mp (List.isEmpty_iff.mp hfail) r hr
                  · exfalso
                    have h3 : (if (enumFails rs).isEmpty = true
                        then (Option.none : Option Err)
                        else some (.keyValue (.tuple targs)
                          ((enumFails rs).map (fun p => (EKey.idx p.1, p.2))) v))
                        = Option.none := hagg
                    rw [if_neg hfail] at h3
                    exact nomatch h3
                rw [fo_tuple_eq, if_neg hcont]
                split
                · rename_i xs2 hiter2
                  rw [hiter] at hiter2
                  injection hiter2 with he
                  subst he
                  refine Out.map_notRaised _ (outMapM_notRaised ?_)
                  intro p hp
                  obtain ⟨r, hr, hfr⟩ := outMapM_ok_mem hrs p hp
                  rw [hnone r hr] at hfr
                  exact ihtc p.1 p.2 hfr
                · rename_i hiter2
                  rw [hiter] at hiter2
                  exact nomatch hiter2
      | union ts =>
        rw [tc_union_eq] at h
        split at h
        · exact nomatch h
        · rename_i hcont
          obtain ⟨checks, hchecks, hagg⟩ := Out.map_eq_ok h
          have hex : ∃ p ∈ checks, p.2 = Option.none := by
            cases hx : checks.all (fun p => p.2.isSome) with
            | true =>
              exfalso
              have h3 : (if checks.all (fun p => p.2.isSome) = true
                  then some (Err.keyValue (Ty.union ts)
                    (checks.filterMap
                      (fun p => p.2.map (fun e => (EKey.ty p.1, e)))) v)
                  else (Option.none : Option Err)) = Option.none := hagg
              rw [hx, if_pos rfl] at h3
              exact nomatch h3
            | false =>
              obtain ⟨p, hp, hps⟩ := List.all_eq_false.mp hx
              refine ⟨p, hp, ?_⟩
              cases hpv : p.2 with
              | none => rfl
              | some e => rw [hpv] at hps; exact absurd rfl hps
          obtain ⟨p0, hp0, hp0n⟩ := hex
          have hfind : (checks.find? (fun p => p.2.isNone)).isSome = true := by
            rw [List.find?_isSome]
            exact ⟨p0, hp0, by rw [hp0n]; rfl⟩
          obtain ⟨q, hq⟩ := Option.isSome_iff_exists.mp hfind
          have hqmem := List.mem_of_find?_eq_some hq
          have hqnone : q.2 = Option.none := by
            have hqp := List.find?_some hq
            cases hqv : q.2 with
            | none => rfl
            | some e => rw [hqv] at hqp; exact nomatch hqp
          have ht0 : firstValidating checks = some q.1 := by
            unfold firstValidating
            rw [hq]
            rfl
          obtain ⟨te0, hte0, hmapq⟩ := outMapM_ok_mem_rev hchecks q hqmem
          obtain ⟨r, hr, hpair⟩ := Out.map_eq_ok hmapq
          have hte0q : te0 = q.1 := by rw [← hpair]
          have hrn : r = Option.none := by
            have h4 : (te0, r).2 = q.2 := by rw [hpair]
            rw [hqnone] at h4
            exact h4
          rw [hte0q, hrn] at hr
          rw [fo_union_eq, if_neg hcont]
          have hloop := (unionFromLoop_spec (typeCheck fuel) (fromObj fuel)
            v ts checks hchecks).1 q.1 ht0
          rw [hloop]
          refine Out.bind_notRaised
            (Out.map_notRaised _ (ihtc q.1 v hr)) ?_
          intro res hres
          obtain ⟨w, hw, hres2⟩ := Out.map_eq_ok hres
          rw [← hres2]
          exact Out.ok_notRaised _
      | dict tk tv2 =>
        rw [tc_dict_eq] at h
        split at h
        · exact nomatch h
        · rename_i hcont
          split at h
          · exact nomatch h
          · rename_i hmap
            split at h
            · exact nomatch h
            · rename_i hh
              split at h
              · exact nomatch h
              · rename_i kvs hkvs
                obtain ⟨rs, hrs, hagg⟩ := Out.map_eq_ok h
                have hb : (rs.filterMap (fun p => p.1)).isEmpty = true ∧
                    (rs.filterMap (fun p => p.2)).isEmpty = true := by
                  by_cases hb2 : (rs.filterMap (fun p => p.1)).isEmpty = true ∧
                      (rs.filterMap (fun p => p.2)).isEmpty = true
                  · exact hb2
                  · exfalso
                    have h3 : (if (rs.filterMap (fun p => p.1)).isEmpty = true ∧
                        (rs.filterMap (fun p => p.2)).isEmpty = true
                        then (Option.none : Option Err)
                        else some (.keyValue (.dict tk tv2)
                          (dictAggKvs tk tv2 (rs.filterMap (fun p => p.1))
                            (rs.filterMap (fun p => p.2))) v))
                        = Option.none := hagg
                    rw [if_neg hb2] at h3
                    exact nomatch h3
                have hnone : ∀ r ∈ rs, r.1 = Option.none ∧ r.2 = Option.none := by
                  intro r hr
                  constructor
                  · cases hrv : r.1 with
                    | none => rfl
                    | some e =>
                      exfalso
                      have hmem : e ∈ rs.filterMap (fun p => p.1) :=
                        List.mem_filterMap.mpr ⟨r, hr, hrv⟩
                      rw [List.isEmpty_iff.mp hb.1] at hmem
                      exact nomatch hmem
                  · cases hrv : r.2 with
                    | none => rfl
                    | some e =>
                      exfalso
                      have hmem : e ∈ rs.filterMap (fun p => p.2) :=
                        List.mem_filterMap.mpr ⟨r, hr, hrv⟩
                      rw [List.isEmpty_iff.mp hb.2] at hmem
                      exact nomatch hmem
                have hentry : ∀ kv ∈ kvs,
                    typeCheck fuel tk kv.1 = .ok Option.none ∧
                    typeCheck fuel tv2 kv.2 = .ok Option.none := by
                  intro kv hkv
                  obtain ⟨r, hr, hfr⟩ := outMapM_ok_mem hrs kv hkv
                  obtain ⟨kr, hkr, hmap2⟩ := Out.bind_eq_ok hfr
                  obtain ⟨vr, hvr, hpair⟩ := Out.map_eq_ok hmap2
                  have hk1 : kr = Option.none := by
                    have h5 : (kr, vr).1 = r.1 := by rw [hpair]
                    rw [(hnone r hr).1] at h5
                    exact h5
                  have hv1 : vr = Option.none := by
                    have h5 : (kr, vr).2 = r.2 := by rw [hpair]
                    rw [(hnone r hr).2] at h5
                    exact h5
                  rw [hk1] at hkr
                  rw [hv1] at hvr
                  exact ⟨hkr, hvr⟩
                rw [fo_dict_eq, if_neg hcont]
                split
                · rename_i kvs2 hkvs2
                  rw [hkvs] at hkvs2
                  injection hkvs2 with he
                  subst he
                  refine Out.bind_notRaised (outMapM_notRaised ?_) ?_
                  · intro kv hkv
                    refine Out.bind_notRaised (ihtc tk kv.1 (hentry kv hkv).1)
                      (fun wk _ => Out.map_notRaised _
                        (ihtc tv2 kv.2 (hentry kv hkv).2))
                  · intro ws hws
                    have hall : ws.all (fun p => runtimeHashable p.1) = true := by
                      rw [List.all_eq_true]
                      intro w hw
                      obtain ⟨kv, hkv, hfw⟩ := outMapM_ok_mem_rev hws w hw
                      obtain ⟨wk, hwk, hmap3⟩ := Out.bind_eq_ok hfw
                      obtain ⟨wv, hwv, hpair3⟩ := Out.map_eq_ok hmap3
                      have hw1 : w.1 = wk := by rw [← hpair3]
                      rw [hw1]
                      exact fromObj_declaredHashable
                        (isHashableCheck_none hh).2 fuel kv.1 wk hwk
                    rw [if_pos hall]
                    exact Out.ok_notRaised _
                · rename_i hkvs2
                  rw [hkvs] at hkvs2
                  exact nomatch hkvs2
      | cls c =>
        rw [tc_cls_eq] at h
        split at h
        · exact nomatch h
        · rename_i hcc2
          obtain ⟨g, hg, hfn⟩ := Out.bind_eq_ok h
          cases g with
          | failed e0 => exact nomatch hfn
          | already w => exact absurd hg generalCheck_false_no_already
          | pass =>
            obtain ⟨m, s, hveq, hts2, hkey⟩ := generalCheck_ok_pass hg
            subst hveq
            obtain ⟨ru, hru⟩ := resolveRu_of_pass hts2 hkey
            have hctc : ctorTypeCheck fuel ru m = .ok Option.none := by
              have h2 : (match resolveRu c m with
                  | some ru2 => ctorTypeCheck fuel ru2 m
                  | Option.none => (Out.raised .pyKeyError : Out (Option Err)))
                  = .ok Option.none := hfn
              rw [hru] at h2
              exact h2
            intro e he
            rw [fo_cls_eq, if_neg hcc2] at he
            rcases generalCheck_true_of_pass hg with hgt | hgt
            · rw [hgt] at he
              exact nomatch he
            · rw [hgt] at he
              have he2 : (match resolveRu c m with
                  | some ru2 => (ctorFromObj fuel ru2 m).map (fun p => p.1)
                  | Option.none => (Out.raised .pyKeyError : Out Val))
                  = Out.raised e := he
              rw [hru] at he2
              exact Out.map_notRaised (fun p => p.1) (ihctc ru m hctc) e he2
    · intro c m h
      rw [ctc_succ_eq] at h
      cases ho : checkParameterOrder c with
      | some e0 => rw [ho] at h; exact nomatch h
      | none =>
        rw [ho] at h
        cases hcons : parameterConsistency c m with
        | some e0 => rw [hcons] at h; exact nomatch h
        | none =>
          rw [hcons] at h
          obtain ⟨fails, hloop, hagg⟩ := Out.map_eq_ok h
          have hfails : fails = [] := by
            by_cases hb : fails.isEmpty = true
            · exact List.isEmpty_iff.mp hb
            · exfalso
              have h3 : (if fails.isEmpty = true then (Option.none : Option Err)
                  else some (.keyValue (.cls c)
                    (fails.map (fun p => (EKey.str p.1, p.2))) (.params m)))
                  = Option.none := hagg
              rw [if_neg hb] at h3
              exact nomatch h3
          rw [hfails] at hloop
          rw [cfo_succ_eq, ho]
          refine Out.bind_notRaised (cfoLoop_notRaised ?_ ?_ _ _) ?_
          · intro k hk1
            have hkt : k ≠ "type" := by
              intro hkt
              rw [hkt, hasKeyA_eraseA_self] at hk1
              exact nomatch hk1
            rw [hasKeyA_eraseA_ne hkt] at hk1
            obtain ⟨a, ha⟩ := hasKeyA_exists hk1
            exact parameterConsistency_none_keys hcons (k, a) (lookupA_mem ha) hkt
          · intro k sp hk1 hsp
            have hkt : k ≠ "type" := by
              intro hkt
              rw [hkt, hasKeyA_eraseA_self] at hk1
              exact nomatch hk1
            have hkm : hasKeyA m k = true := by
              rw [← hasKeyA_eraseA_ne hkt]
              exact hk1
            have hkeys : k ∈ (parameterOrderOf c).getD
                (m.map (fun kv => kv.1)) := by
              cases hpoc : parameterOrderOf c with
              | some po =>
                have hcontains := checkParameterOrder_none_sub ho hpoc k
                  (List.mem_map.mpr ⟨(k, sp), lookupA_mem hsp, rfl⟩)
                exact List.elem_iff.mp hcontains
              | none =>
                exact mem_fst_of_hasKeyA hkm
            obtain ⟨sp2, hsp2, hptc⟩ := ctcLoop_ok_nil hloop k hkeys hkm hkt
            rw [hsp] at hsp2
            injection hsp2 with hspe
            cases hspe
            rw [paramsGet_eraseA_ne m hkt]
            exact ihptc sp.anno (paramsGet m k) hptc
          · intro kwargs hkw
            have hkeys2 := cfoLoop_ok_keys hkw
            rw [List.map_nil, List.nil_append] at hkeys2
            refine Out.map_notRaised _ (pyConstruct_notRaised ?_ ?_)
            · intro kp hkp hdef
              have h3 := List.all_eq_true.mp (params_no_self_type c) kp hkp
              rw [Bool.and_eq_true, bne_iff_ne, bne_iff_ne] at h3
              have hkm : hasKeyA m kp.1 = true :=
                parameterConsistency_none_required hcons kp hkp h3.1 hdef
              have hk1 : hasKeyA (eraseA m "type") kp.1 = true := by
                rw [hasKeyA_eraseA_ne h3.2]
                exact hkm
              have hinkeys : kp.1 ∈ (parameterOrderOf c).getD
                  ((eraseA m "type").map (fun kv => kv.1)) := by
                cases hpoc : parameterOrderOf c with
                | some po =>
                  have hcontains := checkParameterOrder_none_sub ho hpoc kp.1
                    (List.mem_map.mpr ⟨kp, hkp, rfl⟩)
                  exact List.elem_iff.mp hcontains
                | none =>
                  exact mem_fst_of_hasKeyA hk1
              have hmemk : kp.1 ∈ kwargs.map (fun kv => kv.1) := by
                rw [hkeys2]
                exact List.mem_filter.mpr ⟨hinkeys, hk1⟩
              exact hasKeyA_of_mem_fst hmemk
            · intro kv hkv
              have hmemk : kv.1 ∈ kwargs.map (fun kv => kv.1) :=
                List.mem_map.mpr ⟨kv, hkv, rfl⟩
              rw [hkeys2] at hmemk
              obtain ⟨hink, hk1⟩ := List.mem_filter.mp hmemk
              have hkt : kv.1 ≠ "type" := by
                intro hkt
                rw [hkt, hasKeyA_eraseA_self] at hk1
                exact nomatch hk1
              rw [hasKeyA_eraseA_ne hkt] at hk1
              obtain ⟨a, ha⟩ := hasKeyA_exists hk1
              exact parameterConsistency_none_keys hcons (kv.1, a)
                (lookupA_mem ha) hkt
    · intro t v h
      rw [ptc_succ_eq] at h
      split at h
      · exact nomatch h
      · rename_i hcont
        rw [pfo_succ_eq, if_neg hcont]
        split at h
        · rename_i hsh
          exact fo_shortcut_notRaised fuel (not_not.mp hcont) hsh.1 hsh.2
        · exact ihtc t v h

/-- C2 (amended): for every target type and value, when the
orchestrator's `type_check` returns `None` the corresponding `from_obj`
run does not raise -- including the primitive families (where `from_obj`
applies the primitive constructor) and the hierarchical family (where a
value already an instance of the target is accepted).  The converse
direction of the spec's "iff" is false: `from_obj` can succeed by
coercion on values `type_check` rejects. -/
theorem c2_validate_construct_agreement (fuel : Nat) (t : Ty) (v : Val)
    (h : typeCheck fuel t v = .ok Option.none) :
    (fromObj fuel t v).notRaised :=
  (okNoneConstructs fuel).1 t v h

/-- C2 witness: constructing a `Meat` from a validated `Params` value. -/
theorem c2_validate_construct_agreement_witness :
    typeCheck 3 (.cls .meat)
      (.params [("type", .str "beef"), ("weight", .float 2)])
      = .ok Option.none ∧
    (fromObj 3 (.cls .meat)
      (.params [("type", .str "beef"), ("weight", .float 2)])).notRaised :=
  ⟨rfl, c2_validate_construct_agreement 3 (.cls .meat)
    (.params [("type", .str "beef"), ("weight", .float 2)]) rfl⟩

/-- C2 counterexample: the spec's "iff" fails in the
construct-to-validate direction.  `int("5")` coerces, so
`from_obj(int, "5")` returns `5` without raising, while
`type_check(int, "5")` returns a `WrongTypeError`. -/
theorem c2_validate_construct_agreement_counterexample :
    typeCheck 1 .int (.str "5")
      = .ok (some (.wrongType .int (.str "5"))) ∧
    fromObj 1 .int (.str "5") = .ok (.int 5) :=
  ⟨rfl, rfl⟩

end Adorn
